import Mathlib

/-!
Verification of the uc-mon JavaScript monitoring tool: a shallow embedding of
the filename normalizer (normalizer.js), the JSON version store (storage.js)
and the diff statistics (differ.js), together with theorems settling the
specification claims about them.

Strings are modelled as Lean strings; the regex-replacement passes of the
normalizer operate on the underlying character lists.  JavaScript objects
(string-keyed records) are modelled as association lists where an assignment
replaces the binding and a delete removes it.  Library collaborators that are
not part of the repository (the WHATWG URL parser, the sha256 digest, Date
parsing of ISO timestamps) are passed in as function parameters.
-/

namespace UCMon

/-! ### Association lists (model of JavaScript string-keyed objects) -/

def lookupA [DecidableEq κ] (k : κ) : List (κ × ν) → Option ν
  | [] => none
  | (k', v) :: rest => if k = k' then some v else lookupA k rest

def setA [DecidableEq κ] (k : κ) (v : ν) : List (κ × ν) → List (κ × ν)
  | [] => [(k, v)]
  | (k', v') :: rest => if k = k' then (k, v) :: rest else (k', v') :: setA k v rest

/-- Model of JavaScript `delete obj[key]` (object keys are unique, so
removing every binding of the key is the same operation). -/
def eraseA [DecidableEq κ] (k : κ) (l : List (κ × ν)) : List (κ × ν) :=
  l.filter (fun e => e.1 ≠ k)

theorem lookupA_setA_self [DecidableEq κ] (k : κ) (v : ν) (l : List (κ × ν)) :
    lookupA k (setA k v l) = some v := by
  induction l with
  | nil => simp [setA, lookupA]
  | cons e rest ih =>
    by_cases h : k = e.1
    · simp [setA, lookupA, h]
    · simp only [setA]
      rw [if_neg h]
      simp [lookupA, h, ih]

theorem lookupA_setA_ne [DecidableEq κ] (k k' : κ) (v : ν) (l : List (κ × ν))
    (h : k' ≠ k) : lookupA k' (setA k v l) = lookupA k' l := by
  induction l with
  | nil => simp [setA, lookupA, h]
  | cons e rest ih =>
    by_cases hk : k = e.1
    · subst hk
      simp only [setA, if_pos rfl]
      simp [lookupA, h]
    · simp only [setA]
      rw [if_neg hk]
      by_cases hk' : k' = e.1
      · simp [lookupA, hk']
      · simp [lookupA, hk', ih]

theorem lookupA_eraseA_self [DecidableEq κ] (k : κ) (l : List (κ × ν)) :
    lookupA k (eraseA k l) = none := by
  induction l with
  | nil => simp [eraseA, lookupA]
  | cons e rest ih =>
    rw [eraseA] at ih ⊢
    rw [List.filter_cons]
    split
    · rename_i hp
      have hne : e.1 ≠ k := by simpa using hp
      rw [lookupA, if_neg (fun hk => hne hk.symm)]
      exact ih
    · exact ih

theorem lookupA_eraseA_ne [DecidableEq κ] (k k' : κ) (l : List (κ × ν))
    (h : k' ≠ k) : lookupA k' (eraseA k l) = lookupA k' l := by
  induction l with
  | nil => simp [eraseA, lookupA]
  | cons e rest ih =>
    rw [eraseA] at ih ⊢
    rw [List.filter_cons]
    split
    · rename_i hp
      by_cases hk' : k' = e.1
      · simp [lookupA, hk']
      · rw [lookupA, if_neg hk', lookupA, if_neg hk']
        exact ih
    · rename_i hp
      have hke : e.1 = k := by
        by_contra hc
        exact hp (by simpa using hc)
      have : k' ≠ e.1 := fun he => h (he ▸ hke)
      rw [lookupA, if_neg this]
      exact ih

theorem lookupA_mem [DecidableEq κ] {k : κ} {v : ν} {l : List (κ × ν)}
    (h : lookupA k l = some v) : (k, v) ∈ l := by
  induction l with
  | nil => simp [lookupA] at h
  | cons e rest ih =>
    rw [lookupA] at h
    split at h
    · cases h
      rename_i he
      subst he
      simp
    · exact List.mem_cons_of_mem _ (ih h)

/-- Model of JavaScript Array.prototype.findIndex returning an optional index. -/
def findIdxA (p : α → Bool) : List α → Option Nat
  | [] => none
  | a :: t => if p a then some 0 else (findIdxA p t).map (· + 1)

theorem findIdxA_lt_length {p : α → Bool} {l : List α} {i : Nat}
    (h : findIdxA p l = some i) : i < l.length := by
  induction l generalizing i with
  | nil => simp [findIdxA] at h
  | cons a t ih =>
    rw [findIdxA] at h
    split at h
    · cases h; simp
    · cases hj : findIdxA p t with
      | none => rw [hj] at h; simp at h
      | some j =>
        rw [hj] at h
        simp only [Option.map_some'] at h
        cases h
        have := ih hj
        simp only [List.length_cons]
        omega

/-! ### Stable sort by descending integer key

JavaScript Array.prototype.sort with comparator (a, b) => key(b) - key(a) is a
stable descending sort by key; a stable sort is extensionally determined by the
comparator, so insertion sort is a faithful model. -/

def insKeyDesc (key : α → Int) (x : α) : List α → List α
  | [] => [x]
  | y :: ys => if key x < key y then y :: insKeyDesc key x ys else x :: y :: ys

def sortKeyDesc (key : α → Int) : List α → List α
  | [] => []
  | x :: xs => insKeyDesc key x (sortKeyDesc key xs)

theorem insKeyDesc_perm (key : α → Int) (x : α) (l : List α) :
    (insKeyDesc key x l).Perm (x :: l) := by
  induction l with
  | nil => simp [insKeyDesc]
  | cons y ys ih =>
    rw [insKeyDesc]
    split
    · exact ((ih.cons y).trans (List.Perm.swap x y ys))
    · exact List.Perm.refl _

theorem sortKeyDesc_perm (key : α → Int) (l : List α) :
    (sortKeyDesc key l).Perm l := by
  induction l with
  | nil => simp [sortKeyDesc]
  | cons x xs ih =>
    exact (insKeyDesc_perm key x (sortKeyDesc key xs)).trans (ih.cons x)

theorem mem_insKeyDesc {key : α → Int} {x z : α} {l : List α} :
    z ∈ insKeyDesc key x l ↔ z = x ∨ z ∈ l := by
  constructor
  · intro h
    have := (insKeyDesc_perm key x l).mem_iff.mp h
    simpa using this
  · intro h
    apply (insKeyDesc_perm key x l).mem_iff.mpr
    simpa using h

theorem insKeyDesc_sorted {key : α → Int} {x : α} {l : List α}
    (h : l.Pairwise fun a b => key b ≤ key a) :
    (insKeyDesc key x l).Pairwise fun a b => key b ≤ key a := by
  induction l with
  | nil => simp [insKeyDesc]
  | cons y ys ih =>
    rw [List.pairwise_cons] at h
    obtain ⟨hy, hys⟩ := h
    rw [insKeyDesc]
    split
    · rename_i hlt
      rw [List.pairwise_cons]
      refine ⟨?_, ih hys⟩
      intro z hz
      rcases mem_insKeyDesc.mp hz with rfl | hz'
      · exact le_of_lt hlt
      · exact hy z hz'
    · rename_i hge
      rw [List.pairwise_cons]
      refine ⟨?_, List.pairwise_cons.mpr ⟨hy, hys⟩⟩
      intro z hz
      rcases List.mem_cons.mp hz with rfl | hz'
      · omega
      · exact le_trans (hy z hz') (by omega)

theorem sortKeyDesc_sorted (key : α → Int) (l : List α) :
    (sortKeyDesc key l).Pairwise fun a b => key b ≤ key a := by
  induction l with
  | nil => simp [sortKeyDesc]
  | cons x xs ih => exact insKeyDesc_sorted ih

theorem insKeyDesc_of_no_lt {key : α → Int} {x : α} {l : List α}
    (h : ∀ y ∈ l, ¬ key x < key y) : insKeyDesc key x l = x :: l := by
  cases l with
  | nil => rfl
  | cons y ys =>
    rw [insKeyDesc, if_neg (h y (by simp))]

theorem sortKeyDesc_of_const {key : α → Int} {l : List α}
    (h : ∀ a ∈ l, ∀ b ∈ l, key a = key b) : sortKeyDesc key l = l := by
  induction l with
  | nil => rfl
  | cons x xs ih =>
    rw [sortKeyDesc]
    have hxs : sortKeyDesc key xs = xs :=
      ih fun a ha b hb => h a (by simp [ha]) b (by simp [hb])
    rw [hxs]
    apply insKeyDesc_of_no_lt
    intro y hy
    rw [h x (by simp) y (by simp [hy])]
    omega

/-! ### Character classes used by the normalizer patterns (src/normalizer.js) -/

def isHexChar (c : Char) : Bool :=
  (decide ('0' ≤ c) && decide (c ≤ '9')) ||
  (decide ('a' ≤ c) && decide (c ≤ 'f')) ||
  (decide ('A' ≤ c) && decide (c ≤ 'F'))

def isDigitChar (c : Char) : Bool := decide ('0' ≤ c) && decide (c ≤ '9')

/-- JavaScript regex word character: [A-Za-z0-9_]. -/
def isWordChar (c : Char) : Bool := c.isAlphanum || c == '_'

def isWordDotChar (c : Char) : Bool := isWordChar c || c == '.'

/-- Length of the longest run of characters satisfying p at the head. -/
def runLength (p : Char → Bool) : List Char → Nat
  | [] => 0
  | c :: cs => if p c then runLength p cs + 1 else 0

/-- Case-insensitive literal check for a lowercase word at the head. -/
def startsWithCI (w : List Char) (l : List Char) : Bool :=
  match w, l with
  | [], _ => true
  | _ :: _, [] => false
  | a :: ws, c :: cs => (c.toLower == a) && startsWithCI ws cs

/-! ### A global-replace scanner

A matcher inspects the string at the current position and returns the
replacement together with the number of characters the match consumes (at
least one).  scanGo walks the string left to right, skipping over consumed
characters, exactly as a global JavaScript regex replace advances lastIndex
past each match. -/

def scanGo (m : List Char → Option (List Char × Nat)) : Nat → List Char → List Char
  | _, [] => []
  | k+1, _ :: cs => scanGo m k cs
  | 0, c :: cs =>
    match m (c :: cs) with
    | some (rep, n) => rep ++ scanGo m (n - 1) cs
    | none => c :: scanGo m 0 cs

def scanP (m : List Char → Option (List Char × Nat)) (l : List Char) : List Char :=
  scanGo m 0 l

/-- Scanner variant that passes the previous original character to the
matcher, for patterns with a word-boundary assertion. -/
def scanCtxGo (m : Option Char → List Char → Option (List Char × Nat)) :
    Option Char → Nat → List Char → List Char
  | _, _, [] => []
  | _, k+1, c :: cs => scanCtxGo m (some c) k cs
  | prev, 0, c :: cs =>
    match m prev (c :: cs) with
    | some (rep, n) => rep ++ scanCtxGo m (some c) (n - 1) cs
    | none => c :: scanCtxGo m (some c) 0 cs

def scanCtx (m : Option Char → List Char → Option (List Char × Nat)) (l : List Char) :
    List Char :=
  scanCtxGo m none 0 l

/-! ### The nine pattern matchers, in source order -/

/-- Pattern 1, ([a-f0-9]{8,32}) gi -> [hash]: a greedy bounded repetition
takes min(run, 32) characters of a hex run of length at least 8. -/
def matchHash (l : List Char) : Option (List Char × Nat) :=
  let n := runLength isHexChar l
  if 8 ≤ n then some ("[hash]".data, min n 32) else none

/-- Pattern 2, \.([a-f0-9]{6,})\. gi -> .[hash]. : a dot, a maximal hex run of
length at least 6, then a dot (reducing the greedy run only exposes a hex
character where the dot is required, so only the maximal run can match). -/
def matchDotHash (l : List Char) : Option (List Char × Nat) :=
  match l with
  | '.' :: cs =>
    let n := runLength isHexChar cs
    if 6 ≤ n ∧ (cs.drop n).head? = some '.' then some (".[hash].".data, n + 2) else none
  | _ => none

/-- Pattern 3, chunk[.\-_](\d+) gi -> chunk.[id]. -/
def matchChunk (l : List Char) : Option (List Char × Nat) :=
  if startsWithCI "chunk".data l then
    match l.drop 5 with
    | sep :: rest =>
      if sep == '.' || sep == '-' || sep == '_' then
        let d := runLength isDigitChar rest
        if 1 ≤ d then some ("chunk.[id]".data, 6 + d) else none
      else none
    | [] => none
  else none

/-- Core of pattern 5: \d+\.\d+\.\d+(-[\w.]+)? ; returns characters consumed.
Each greedy \d+ must be the maximal digit run, since backtracking it only
exposes a digit where a literal dot is required. -/
def matchVersionCore (l : List Char) : Option Nat :=
  let d1 := runLength isDigitChar l
  if 1 ≤ d1 then
    match l.drop d1 with
    | '.' :: r1 =>
      let d2 := runLength isDigitChar r1
      if 1 ≤ d2 then
        match r1.drop d2 with
        | '.' :: r2 =>
          let d3 := runLength isDigitChar r2
          if 1 ≤ d3 then
            let base := d1 + 1 + d2 + 1 + d3
            match r2.drop d3 with
            | '-' :: r3 =>
              let w := runLength isWordDotChar r3
              if 1 ≤ w then some (base + 1 + w) else some base
            | _ => some base
          else none
        | _ => none
      else none
    | _ => none
  else none

/-- Pattern 5, [v]?\d+\.\d+\.\d+(-[\w.]+)? gi -> [version].  If the optional v
is present but the numeric core fails after it, retrying without the v fails
immediately (v is not a digit), so the whole position fails. -/
def matchVersion (l : List Char) : Option (List Char × Nat) :=
  match l with
  | c :: cs =>
    if c == 'v' || c == 'V' then
      (matchVersionCore cs).map (fun n => ("[version]".data, n + 1))
    else
      (matchVersionCore l).map (fun n => ("[version]".data, n))
  | [] => none

/-- Pattern 6, \b\d{10,13}\b g -> [timestamp]: matches exactly the maximal
digit runs of length 10 to 13 enclosed in word boundaries (a longer run fails
for every starting offset because one side of the candidate is a digit). -/
def matchTimestamp (prev : Option Char) (l : List Char) : Option (List Char × Nat) :=
  let boundaryBefore := match prev with | none => true | some c => !(isWordChar c)
  let r := runLength isDigitChar l
  let boundaryAfter := match (l.drop r).head? with | none => true | some c => !(isWordChar c)
  if boundaryBefore && decide (10 ≤ r) && decide (r ≤ 13) && boundaryAfter then
    some ("[timestamp]".data, r)
  else none

/-- Exactly n hex characters, returning the remainder. -/
def hexExact : Nat → List Char → Option (List Char)
  | 0, l => some l
  | _+1, [] => none
  | n+1, c :: cs => if isHexChar c then hexExact n cs else none

/-- Pattern 7, the canonical 8-4-4-4-12 UUID shape, gi -> [uuid]. -/
def matchUUID (l : List Char) : Option (List Char × Nat) :=
  match hexExact 8 l with
  | some ('-' :: r1) =>
    match hexExact 4 r1 with
    | some ('-' :: r2) =>
      match hexExact 4 r2 with
      | some ('-' :: r3) =>
        match hexExact 4 r3 with
        | some ('-' :: r4) =>
          match hexExact 12 r4 with
          | some _ => some ("[uuid]".data, 36)
          | _ => none
        | _ => none
      | _ => none
    | _ => none
  | _ => none

/-- Pattern 8, build[.\-_]?\d+ gi -> build[n].  If the optional separator is
present but not followed by digits, dropping it exposes the separator where a
digit is required, so the position fails. -/
def matchBuild (l : List Char) : Option (List Char × Nat) :=
  if startsWithCI "build".data l then
    match l.drop 5 with
    | sep :: r2 =>
      if sep == '.' || sep == '-' || sep == '_' then
        let d := runLength isDigitChar r2
        if 1 ≤ d then some ("build[n]".data, 6 + d) else none
      else
        let d := runLength isDigitChar (sep :: r2)
        if 1 ≤ d then some ("build[n]".data, 5 + d) else none
    | [] => none
  else none

/-- Pattern 9, runtime~[\w]+ gi -> runtime~[name]. -/
def matchRuntime (l : List Char) : Option (List Char × Nat) :=
  if startsWithCI "runtime".data l then
    match l.drop 7 with
    | '~' :: rest =>
      let w := runLength isWordChar rest
      if 1 ≤ w then some ("runtime~[name]".data, 8 + w) else none
    | _ => none
  else none

/-- Pattern 4, \/(\d+)\.js$ i (no g flag, anchored at the end): replaces the
suffix /digits.js when present.  The anchored match is the suffix whose digit
run is maximal and preceded by a slash; any other start position puts a
non-slash where the slash is required. -/
def replaceNumChunk (l : List Char) : List Char :=
  match l.reverse with
  | s :: j :: d :: rest =>
    if s.toLower == 's' && j.toLower == 'j' && d == '.' then
      let r := runLength isDigitChar rest
      if 1 ≤ r ∧ (rest.drop r).head? = some '/' then
        (rest.drop (r + 1)).reverse ++ "/[chunk].js".data
      else l
    else l
  | _ => l

/-- Literal global replace with the empty string (JS .replace(/tok/g, '')). -/
def matchLit (tok : List Char) (l : List Char) : Option (List Char × Nat) :=
  if tok.isPrefixOf l then some ([], tok.length) else none

/-- JS global replace of the regex dash-dash-plus with a single dash:
collapse runs of 2 or more dashes. -/
def matchDashRun (l : List Char) : Option (List Char × Nat) :=
  let r := runLength (· == '-') l
  if 2 ≤ r then some (['-'], r) else none

/-- JS global replace of the regex dot-dot-plus with a single dot:
collapse runs of 2 or more dots. -/
def matchDotRun (l : List Char) : Option (List Char × Nat) :=
  let r := runLength (· == '.') l
  if 2 ≤ r then some (['.'], r) else none

/-- The ordered application of the nine patterns of FilenameNormalizer to a
path or query string, as in the normalize loop of src/normalizer.js. -/
def normalizeChars (l : List Char) : List Char :=
  scanP matchRuntime
    (scanP matchBuild
      (scanP matchUUID
        (scanCtx matchTimestamp
          (scanP matchVersion
            (replaceNumChunk
              (scanP matchChunk
                (scanP matchDotHash
                  (scanP matchHash l))))))))

namespace FilenameNormalizer

/-- FilenameNormalizer.createIdentifier: strip the six bracket placeholders by
global literal replaces, collapse dash and dot runs, then prefix the origin. -/
def createIdentifier (origin : String) (normalizedPath : String) : String :=
  let s1 := scanP (matchLit "[hash]".data) normalizedPath.data
  let s2 := scanP (matchLit "[id]".data) s1
  let s3 := scanP (matchLit "[chunk]".data) s2
  let s4 := scanP (matchLit "[timestamp]".data) s3
  let s5 := scanP (matchLit "[uuid]".data) s4
  let s6 := scanP (matchLit "[version]".data) s5
  let s7 := scanP matchDashRun s6
  let s8 := scanP matchDotRun s7
  origin ++ String.mk s8

/-- pathname.split('/').pop(): the suffix after the last slash. -/
def afterLastSlash (l : List Char) : List Char :=
  l.foldl (fun acc c => if c == '/' then [] else acc ++ [c]) []

/-- The components of a successfully parsed URL (the WHATWG URL parser is a
platform library, so it is passed in as a parameter to normalize). -/
structure URLParts where
  origin : String
  host : String
  pathname : String
  search : String
  deriving DecidableEq, Repr

structure NormResult where
  original : String
  normalized : String
  identifier : String
  host : String
  pathname : String
  filename : String
  deriving DecidableEq, Repr

/-- FilenameNormalizer.normalize: parse, apply every pattern to the path and
the query string, and build the result record; on a parse failure return the
fallback record of the catch branch. -/
def normalize (parseURL : String → Option URLParts) (url : String) : NormResult :=
  match parseURL url with
  | some p =>
    let pathname := String.mk (normalizeChars p.pathname.data)
    let search := String.mk (normalizeChars p.search.data)
    { original := url
      normalized := p.origin ++ pathname ++ search
      identifier := createIdentifier p.origin pathname
      host := p.host
      pathname := pathname
      filename := String.mk (afterLastSlash pathname.data) }
  | none =>
    { original := url
      normalized := url
      identifier := url
      host := "unknown"
      pathname := url
      filename := url }

end FilenameNormalizer

/-! ### The version store (src/storage.js)

The JSON database and the scripts directory are modelled together as a
StorageState.  Content files are named by the version id that created them
(contentFile in the code is the path scriptsDir/versionId.js), so the file
system is an association list from version id to content.  The sha256 digest
and the current ISO timestamp are passed in as parameters. -/

structure Target where
  id : Nat
  domain : String
  createdAt : String
  lastScan : Option String
  deriving DecidableEq, Repr

structure Scan where
  id : Nat
  targetId : Nat
  url : String
  timestamp : String
  scriptCount : Nat
  totalSize : Nat
  deriving DecidableEq, Repr

structure Script where
  id : Nat
  targetId : Nat
  url : String
  normalizedUrl : String
  identifier : String
  baseName : String
  firstSeen : String
  lastSeen : String
  deriving DecidableEq, Repr

structure Version where
  id : Nat
  scriptId : Nat
  scanId : Nat
  contentHash : String
  contentFile : Nat
  size : Nat
  url : String
  timestamp : String
  deriving DecidableEq, Repr

structure NextIds where
  target : Nat
  scan : Nat
  script : Nat
  version : Nat
  deriving DecidableEq, Repr

/-- The scripts object is keyed by the template string targetId:identifier;
since the decimal target id contains no colon, that string determines and is
determined by the pair, so the key is modelled as the pair. -/
structure DB where
  targets : List (String × Target)
  scans : List Scan
  scripts : List ((Nat × String) × Script)
  scriptVersions : List (Nat × List Version)
  nextId : NextIds
  deriving DecidableEq, Repr

structure StorageState where
  db : DB
  files : List (Nat × String)
  deriving DecidableEq, Repr

structure ScriptData where
  url : String
  content : String
  size : Nat
  deriving DecidableEq, Repr

/-- The fields of the normalize result that storeScript reads. -/
structure NormInfo where
  identifier : String
  normalized : String
  filename : String
  deriving DecidableEq, Repr

structure StoreResult where
  scriptId : Nat
  versionId : Nat
  isNewScript : Bool
  isNewVersion : Bool
  contentHash : String
  deriving DecidableEq, Repr

namespace Storage

/-- Storage.storeScript: resolve or create the Script for
(targetId, identifier), then deduplicate the content against that Script's own
version list by content hash, appending a new Version (and writing its content
file) only when the hash is absent. -/
def storeScript (hashContent : String → String) (now : String) (s : StorageState)
    (targetId scanId : Nat) (scriptData : ScriptData) (normalizedInfo : NormInfo) :
    StoreResult × StorageState :=
  let contentHash := hashContent scriptData.content
  let scriptKey : Nat × String := (targetId, normalizedInfo.identifier)
  let scriptStep :=
    match lookupA scriptKey s.db.scripts with
    | none =>
      ({ id := s.db.nextId.script
         targetId := targetId
         url := scriptData.url
         normalizedUrl := normalizedInfo.normalized
         identifier := normalizedInfo.identifier
         baseName := normalizedInfo.filename
         firstSeen := now
         lastSeen := now : Script },
       true, s.db.nextId.script + 1)
    | some sc => ({ sc with lastSeen := now }, false, s.db.nextId.script)
  let script := scriptStep.1
  let isNewScript := scriptStep.2.1
  let nextScript := scriptStep.2.2
  let scripts1 := setA scriptKey script s.db.scripts
  let sv1 :=
    match lookupA script.id s.db.scriptVersions with
    | none => setA script.id ([] : List Version) s.db.scriptVersions
    | some _ => s.db.scriptVersions
  let versions := (lookupA script.id sv1).getD []
  match versions.find? (fun v => v.contentHash == contentHash) with
  | some v =>
    let next' : NextIds := { s.db.nextId with script := nextScript }
    let db' : DB := { s.db with scripts := scripts1, scriptVersions := sv1, nextId := next' }
    ({ scriptId := script.id, versionId := v.id, isNewScript := isNewScript,
       isNewVersion := false, contentHash := contentHash },
     { db := db', files := s.files })
  | none =>
    let versionId := s.db.nextId.version
    let version : Version :=
      { id := versionId, scriptId := script.id, scanId := scanId,
        contentHash := contentHash, contentFile := versionId,
        size := scriptData.size, url := scriptData.url, timestamp := now }
    let next' : NextIds :=
      { s.db.nextId with script := nextScript, version := s.db.nextId.version + 1 }
    let sv2 := setA script.id (versions ++ [version]) sv1
    let db' : DB :=
      { s.db with scripts := scripts1, scriptVersions := sv2, nextId := next' }
    ({ scriptId := script.id, versionId := versionId, isNewScript := isNewScript,
       isNewVersion := true, contentHash := contentHash },
     { db := db', files := setA versionId scriptData.content s.files })

/-- Storage.getPreviousVersion: sort the script's versions by descending id,
locate the current id, take the next entry, and return it with its content
only when its content file exists (otherwise null). -/
def getPreviousVersion (s : StorageState) (scriptId currentVersionId : Nat) :
    Option (Version × String) :=
  let versions := (lookupA scriptId s.db.scriptVersions).getD []
  let sorted := sortKeyDesc (fun v => (v.id : Int)) versions
  match findIdxA (fun v => v.id == currentVersionId) sorted with
  | none => none
  | some i =>
    if i = sorted.length - 1 then none
    else
      match sorted[i+1]? with
      | none => none
      | some prev =>
        match lookupA prev.contentFile s.files with
        | some content => some (prev, content)
        | none => none

/-- Storage.getScriptVersions: the script's versions sorted by descending
timestamp, where dateVal models the numeric value of Date parsing. -/
def getScriptVersions (dateVal : String → Int) (s : StorageState) (scriptId : Nat) :
    List Version :=
  sortKeyDesc (fun v => dateVal v.timestamp) ((lookupA scriptId s.db.scriptVersions).getD [])

/-- Storage.getVersionContent: scan the version lists in insertion order for
the id; return the record with its content when the content file exists, the
bare record when it does not, and null when no record matches. -/
def getVersionContentGo (files : List (Nat × String)) (versionId : Nat) :
    List (Nat × List Version) → Option (Version × Option String)
  | [] => none
  | (_, vs) :: rest =>
    match vs.find? (fun v => v.id == versionId) with
    | some v => some (v, lookupA v.contentFile files)
    | none => getVersionContentGo files versionId rest

def getVersionContent (s : StorageState) (versionId : Nat) :
    Option (Version × Option String) :=
  getVersionContentGo s.files versionId s.db.scriptVersions

/-- unlink each version's content file (unlink only fires when the file
exists; removing an absent key is the same resulting file system). -/
def removeFilesOf (vs : List Version) (files : List (Nat × String)) :
    List (Nat × String) :=
  vs.foldl (fun acc v => eraseA v.contentFile acc) files

/-- The removal loop of Storage.removeTarget over the scripts object: each
script of the target has its content files unlinked, its version list entry
deleted and its script entry deleted; other scripts are kept. -/
def removeScriptsLoop (tid : Nat) :
    List ((Nat × String) × Script) → List (Nat × List Version) → List (Nat × String) →
    List ((Nat × String) × Script) × List (Nat × List Version) × List (Nat × String)
  | [], sv, files => ([], sv, files)
  | e :: rest, sv, files =>
    if e.2.targetId = tid then
      let vs := (lookupA e.2.id sv).getD []
      removeScriptsLoop tid rest (eraseA e.2.id sv) (removeFilesOf vs files)
    else
      let r := removeScriptsLoop tid rest sv files
      (e :: r.1, r.2.1, r.2.2)

/-- Storage.removeTarget: false and no change for an unknown domain, otherwise
cascade-delete the target's scripts, version lists, content files and scans. -/
def removeTarget (domain : String) (s : StorageState) : Bool × StorageState :=
  match lookupA domain s.db.targets with
  | none => (false, s)
  | some t =>
    let r := removeScriptsLoop t.id s.db.scripts s.db.scriptVersions s.files
    (true,
     { db := { targets := eraseA domain s.db.targets
               scans := s.db.scans.filter (fun sc => sc.targetId != t.id)
               scripts := r.1
               scriptVersions := r.2.1
               nextId := s.db.nextId }
       files := r.2.2 })

end Storage

/-! ### Diff statistics (src/differ.js) -/

/-- One segment of the line diff produced by the external diffLines library
(calculateStats is agnostic to how the segments were produced). -/
structure DiffPart where
  value : String
  added : Bool
  removed : Bool
  deriving DecidableEq, Repr

structure DiffStats where
  additions : Nat
  deletions : Nat
  unchanged : Nat
  totalOld : Nat
  totalNew : Nat
  changePercent : ℚ
  deriving DecidableEq, Repr

/-- part.value.split newline .length - 1, which is the number of newline
characters in the value. -/
def newlineCount (s : String) : Nat := s.data.count '\n'

/-- oldContent.split newline .length: one more than the newline count. -/
def splitLineCount (s : String) : Nat := newlineCount s + 1

/-- Rounding of the percentage to two decimal places (toFixed(2)), modelled
exactly on rationals. -/
def roundTo2 (q : ℚ) : ℚ := (round (q * 100) : ℤ) / 100

namespace Differ

/-- The counting loop of Differ.calculateStats threading the three counters. -/
def countLoop : List DiffPart → Nat × Nat × Nat → Nat × Nat × Nat
  | [], acc => acc
  | p :: rest, (a, d, u) =>
    let lines := newlineCount p.value
    if p.added then countLoop rest (a + lines, d, u)
    else if p.removed then countLoop rest (a, d + lines, u)
    else countLoop rest (a, d, u + lines)

/-- Differ.calculateStats.  The JavaScript expression totalOld-or-1 is
modelled by the explicit zero test (0 is the only falsy count). -/
def calculateStats (lineDiff : List DiffPart) (oldContent newContent : String) :
    DiffStats :=
  let c := countLoop lineDiff (0, 0, 0)
  let additions := c.1
  let deletions := c.2.1
  let unchanged := c.2.2
  let totalOld := splitLineCount oldContent
  let totalNew := splitLineCount newContent
  { additions := additions, deletions := deletions, unchanged := unchanged
    totalOld := totalOld, totalNew := totalNew
    changePercent :=
      roundTo2 (((additions : ℚ) + (deletions : ℚ)) /
        ((if totalOld = 0 then 1 else totalOld : Nat) : ℚ) * 100) }

end Differ

/-! ### Spec-side definitions, written from the specification's wording, to be
compared against the embedded source functions -/

/-- Spec wording for the identifier derivation: strip each placeholder token
(removing it entirely) by a global literal replace, token after token. -/
def stripPlaceholders (toks : List (List Char)) (l : List Char) : List Char :=
  toks.foldl (fun acc tok => scanP (matchLit tok) acc) l

/-- Spec wording: collapse resulting runs of punctuation (dashes, then dots). -/
def collapsePunct (l : List Char) : List Char :=
  scanP matchDotRun (scanP matchDashRun l)

/-- The six placeholder tokens the code strips; the table's build[n] and
runtime~[name] placeholders are absent from this list. -/
def strippedTokens : List (List Char) :=
  ["[hash]".data, "[id]".data, "[chunk]".data, "[timestamp]".data,
   "[uuid]".data, "[version]".data]

/-- Spec-side stable identifier: origin prefixed to the normalized path with
the listed placeholder tokens removed and punctuation runs collapsed. -/
def identifierSpec (origin : String) (normalizedPath : String) : String :=
  origin ++ String.mk (collapsePunct (stripPlaceholders strippedTokens normalizedPath.data))

/-- Splitting a character list at newlines (model of String.prototype.split). -/
def splitNL : List Char → List (List Char)
  | [] => [[]]
  | c :: cs =>
    if c = '\n' then [] :: splitNL cs
    else
      match splitNL cs with
      | [] => [[c]]
      | h :: t => (c :: h) :: t

/-- The spec claim's per-segment line count: non-empty lines of the split. -/
def nonEmptyLineCount (s : String) : Nat :=
  ((splitNL s.data).filter (fun x => !x.isEmpty)).length

def isAddedPart (p : DiffPart) : Bool := p.added

def isRemovedPart (p : DiffPart) : Bool := !p.added && p.removed

def isUnchangedPart (p : DiffPart) : Bool := !p.added && !p.removed

/-- Sum of the newline counts over the segments matching a tag. -/
def taggedNewlines (tag : DiffPart → Bool) (l : List DiffPart) : Nat :=
  ((l.filter tag).map (fun p => newlineCount p.value)).sum

/-- The element following the first element satisfying p, the specification of
the findIndex-plus-one selection inside getPreviousVersion. -/
def nextAfter (p : α → Bool) : List α → Option α
  | [] => none
  | a :: t => if p a then t.head? else nextAfter p t

/-- Well-formedness of a store state: allocated ids are below the id counters
and version ids are unique within a script's version list.  Every state
reachable from the empty database satisfies this. -/
structure VWF (s : StorageState) : Prop where
  scriptIdsLt : ∀ e ∈ s.db.scripts, e.2.id < s.db.nextId.script
  svKeysLt : ∀ e ∈ s.db.scriptVersions, e.1 < s.db.nextId.script
  verIdsLt : ∀ e ∈ s.db.scriptVersions, ∀ v ∈ e.2, v.id < s.db.nextId.version
  verIdsNodup : ∀ e ∈ s.db.scriptVersions, (e.2.map (fun v => v.id)).Nodup

/-! ### Concrete inputs used by counterexamples and witnesses -/

/-- A script record used to populate concrete states. -/
def cxScript : Script :=
  { id := 1, targetId := 1, url := "https://a.com/main.js",
    normalizedUrl := "https://a.com/main.[hash].js", identifier := "https://a.com/main.js",
    baseName := "main.[hash].js", firstSeen := "2024-01-01T00:00:00.000Z",
    lastSeen := "2024-01-01T00:00:00.000Z" }

/-- Two versions of cxScript that share a capture timestamp. -/
def cxV1 : Version :=
  { id := 1, scriptId := 1, scanId := 1, contentHash := "hX", contentFile := 1,
    size := 1, url := "https://a.com/main.js", timestamp := "2024-01-01T00:00:00.000Z" }

def cxV2 : Version :=
  { id := 2, scriptId := 1, scanId := 2, contentHash := "hY", contentFile := 2,
    size := 1, url := "https://a.com/main.js", timestamp := "2024-01-01T00:00:00.000Z" }

def cxNext : NextIds := { target := 2, scan := 3, script := 2, version := 3 }

def cxTarget : Target :=
  { id := 1, domain := "a.com", createdAt := "2024-01-01T00:00:00.000Z", lastScan := none }

/-- A state where the content file of version 1 is missing and the content
file of version 2 is present. -/
def cxMissingFileState : StorageState :=
  { db := { targets := [("a.com", cxTarget)], scans := [],
            scripts := [((1, "https://a.com/main.js"), cxScript)],
            scriptVersions := [(1, [cxV1, cxV2])], nextId := cxNext },
    files := [(2, "content-of-v2")] }

/-- The same state with both content files present. -/
def cxFullState : StorageState :=
  { db := cxMissingFileState.db,
    files := [(1, "content-of-v1"), (2, "content-of-v2")] }

/-- The empty database that loadDb initializes. -/
def emptyState : StorageState :=
  { db := { targets := [], scans := [], scripts := [], scriptVersions := [],
            nextId := { target := 1, scan := 1, script := 1, version := 1 } },
    files := [] }

/-- A state with two targets for exercising removeTarget: target 1 (a.com)
owns script 1 with versions 1 and 2, target 2 (b.com) owns script 2 with
version 3. -/
def cxTwoTargetState : StorageState :=
  { db := { targets := [("a.com", cxTarget),
                        ("b.com", { id := 2, domain := "b.com",
                                    createdAt := "2024-01-01T00:00:00.000Z",
                                    lastScan := none })],
            scans := [{ id := 1, targetId := 1, url := "https://a.com",
                        timestamp := "t", scriptCount := 1, totalSize := 1 },
                      { id := 2, targetId := 2, url := "https://b.com",
                        timestamp := "t", scriptCount := 1, totalSize := 1 }],
            scripts := [((1, "https://a.com/main.js"), cxScript),
                        ((2, "https://b.com/app.js"),
                         { id := 2, targetId := 2, url := "https://b.com/app.js",
                           normalizedUrl := "https://b.com/app.js",
                           identifier := "https://b.com/app.js", baseName := "app.js",
                           firstSeen := "t", lastSeen := "t" })],
            scriptVersions := [(1, [cxV1, cxV2]),
                               (2, [{ id := 3, scriptId := 2, scanId := 2,
                                      contentHash := "hZ", contentFile := 3, size := 1,
                                      url := "https://b.com/app.js", timestamp := "t" }])],
            nextId := { target := 3, scan := 3, script := 3, version := 4 } },
    files := [(1, "content-of-v1"), (2, "content-of-v2"), (3, "content-of-v3")] }

/-- URL parse results for the two concrete hash-digest URLs of the C1
counterexample: 25 hex characters precede the 8-character digest, so the
greedy bounded hash pattern splits the 33-character hex run differently from
how it splits it with another digest ending in a different character. -/
def cxParts1 : FilenameNormalizer.URLParts :=
  { origin := "https://x.com", host := "x.com",
    pathname := "/aaaaaaaaaaaaaaaaaaaaaaaaabbbbbbbb.js", search := "" }

def cxParts2 : FilenameNormalizer.URLParts :=
  { origin := "https://x.com", host := "x.com",
    pathname := "/aaaaaaaaaaaaaaaaaaaaaaaaacccccccc.js", search := "" }

def cxUrl1 : String := "https://x.com/aaaaaaaaaaaaaaaaaaaaaaaaabbbbbbbb.js"

def cxUrl2 : String := "https://x.com/aaaaaaaaaaaaaaaaaaaaaaaaacccccccc.js"

/-- A concrete parse function mapping the two counterexample URLs to their
components and rejecting everything else. -/
def cxParse (s : String) : Option FilenameNormalizer.URLParts :=
  if s = cxUrl1 then some cxParts1
  else if s = cxUrl2 then some cxParts2
  else none

/-- Parse function for the C1 witness pair, the spec's own example. -/
def wUrl1 : String := "https://x.com/main.1a2b3c4d.js"

def wUrl2 : String := "https://x.com/main.9f8e7d6c.js"

def wParse (s : String) : Option FilenameNormalizer.URLParts :=
  if s = wUrl1 then
    some { origin := "https://x.com", host := "x.com",
           pathname := "/main.1a2b3c4d.js", search := "" }
  else if s = wUrl2 then
    some { origin := "https://x.com", host := "x.com",
           pathname := "/main.9f8e7d6c.js", search := "" }
  else none

/-- Parse function for the C4 counterexample URL with a build tag. -/
def cxBuildParse (s : String) : Option FilenameNormalizer.URLParts :=
  if s = "https://x.com/build123.js" then
    some { origin := "https://x.com", host := "x.com",
           pathname := "/build123.js", search := "" }
  else none

/-! ## Claim C1: stability of the identifier under hash-digest replacement -/

theorem getLast?_cons_of_ne_nil {c : Char} {l : List Char} (h : l ≠ []) :
    (c :: l).getLast? = l.getLast? := by
  cases l with
  | nil => cases h rfl
  | cons d t => exact List.getLast?_cons_cons

theorem getLast?_drop_of_ne_nil {l : List Char} {n : Nat} (h : l.drop n ≠ []) :
    (l.drop n).getLast? = l.getLast? := by
  conv_rhs => rw [← List.take_append_drop n l]
  rw [List.getLast?_append]
  cases hd : l.drop n with
  | nil => exact absurd hd h
  | cons a t => simp [List.getLast?_cons]

theorem runLength_cons (p : Char → Bool) (c : Char) (l : List Char) :
    runLength p (c :: l) = if p c = true then runLength p l + 1 else 0 := rfl

/-- A run bounded inside x by a non-member last character neither sees past x
nor covers all of x. -/
theorem runLength_append_boundary (p : Char → Bool) (x z : List Char) (hx : x ≠ [])
    (hlast : ∀ c, x.getLast? = some c → p c = false) :
    runLength p (x ++ z) = runLength p x ∧ runLength p x < x.length := by
  induction x with
  | nil => cases hx rfl
  | cons c x' ih =>
    cases x' with
    | nil =>
      have hc : p c = false := hlast c rfl
      constructor
      · rw [List.cons_append, List.nil_append, runLength_cons, runLength_cons, hc,
          if_neg (by simp), if_neg (by simp)]
      · rw [runLength_cons, hc, if_neg (by simp)]
        simp
    | cons d x'' =>
      have hlast' : ∀ cc, (d :: x'').getLast? = some cc → p cc = false := by
        intro cc hcc
        apply hlast
        rw [List.getLast?_cons_cons]
        exact hcc
      have IH := ih (by simp) hlast'
      by_cases hc : p c
      · constructor
        · rw [List.cons_append, runLength_cons, runLength_cons, hc, if_pos rfl, if_pos rfl,
            IH.1]
        · rw [runLength_cons, hc, if_pos rfl]
          have h2 := IH.2
          simp only [List.length_cons] at h2 ⊢
          omega
      · have hc' : p c = false := by simpa using hc
        constructor
        · rw [List.cons_append, runLength_cons, runLength_cons, hc',
            if_neg (by simp), if_neg (by simp)]
        · rw [runLength_cons, hc', if_neg (by simp)]
          simp

/-- The run over an all-member block stops exactly at a non-member head. -/
theorem runLength_all (p : Char → Bool) (d y : List Char)
    (hd : ∀ c ∈ d, p c = true) (hy : ∀ c, y.head? = some c → p c = false) :
    runLength p (d ++ y) = d.length := by
  induction d with
  | nil =>
    cases y with
    | nil => rfl
    | cons c y' =>
      have hcf := hy c rfl
      rw [List.nil_append, runLength_cons, hcf, if_neg (by simp)]
      rfl
  | cons c d' ih =>
    have hc := hd c (by simp)
    rw [List.cons_append, runLength_cons, hc, if_pos rfl,
      ih fun cc hcc => hd cc (List.mem_cons_of_mem _ hcc)]
    rfl

/-- Skipping k characters of the scanner equals restarting after dropping
them. -/
theorem scanGo_skip (m : List Char → Option (List Char × Nat)) (k : Nat) (l : List Char) :
    scanGo m k l = scanGo m 0 (l.drop k) := by
  induction l generalizing k with
  | nil => cases k <;> rfl
  | cons c cs ih =>
    cases k with
    | zero => rfl
    | succ k' =>
      show scanGo m k' cs = _
      rw [ih k']
      rfl

/-- The hash scanner consumes a whole boundary-delimited digest of length 8
to 32 in one step. -/
theorem scanHash_at_digest (d y : List Char) (hd : ∀ c ∈ d, isHexChar c = true)
    (h8 : 8 ≤ d.length) (h32 : d.length ≤ 32)
    (hy : ∀ c, y.head? = some c → isHexChar c = false) :
    scanGo matchHash 0 (d ++ y) = "[hash]".data ++ scanGo matchHash 0 y := by
  have hrun : runLength isHexChar (d ++ y) = d.length := runLength_all _ _ _ hd hy
  cases d with
  | nil => simp at h8
  | cons c cs =>
    rw [List.cons_append] at hrun ⊢
    simp only [scanGo]
    have hm : matchHash (c :: (cs ++ y)) = some ("[hash]".data, min (c :: cs).length 32) := by
      simp only [matchHash, hrun]
      rw [if_pos (by simpa using h8)]
    rw [hm]
    dsimp only
    have hmin : min (c :: cs).length 32 = (c :: cs).length := Nat.min_eq_left h32
    rw [hmin]
    simp only [List.length_cons]
    rw [scanGo_skip]
    have : (cs ++ y).drop (cs.length + 1 - 1) = y := by
      simp only [Nat.add_sub_cancel]
      exact List.drop_left cs y
    rw [this]

/-- Replacing one boundary-delimited hex digest of length 8 to 32 by another
leaves the output of the hash-pattern pass unchanged except for the digest
itself, which both become [hash]: the scans agree. -/
theorem scanHash_digest_invariant : ∀ (N : Nat) (x : List Char), x.length ≤ N →
    ∀ (d1 d2 y : List Char),
    (∀ c ∈ d1, isHexChar c = true) → 8 ≤ d1.length → d1.length ≤ 32 →
    (∀ c ∈ d2, isHexChar c = true) → 8 ≤ d2.length → d2.length ≤ 32 →
    (∀ c, x.getLast? = some c → isHexChar c = false) →
    (∀ c, y.head? = some c → isHexChar c = false) →
    scanGo matchHash 0 (x ++ (d1 ++ y)) = scanGo matchHash 0 (x ++ (d2 ++ y)) := by
  intro N
  induction N with
  | zero =>
    intro x hx d1 d2 y hd1 h81 h321 hd2 h82 h322 hxlast hy
    have hxe : x = [] := List.length_eq_zero.mp (Nat.le_zero.mp hx)
    subst hxe
    rw [List.nil_append, List.nil_append,
      scanHash_at_digest d1 y hd1 h81 h321 hy, scanHash_at_digest d2 y hd2 h82 h322 hy]
  | succ N ihN =>
    intro x hx d1 d2 y hd1 h81 h321 hd2 h82 h322 hxlast hy
    cases x with
    | nil =>
      rw [List.nil_append, List.nil_append,
        scanHash_at_digest d1 y hd1 h81 h321 hy, scanHash_at_digest d2 y hd2 h82 h322 hy]
    | cons c x' =>
      obtain ⟨hrun_eq, hrun_lt⟩ :=
        runLength_append_boundary isHexChar (c :: x') (d1 ++ y) (by simp) hxlast
      obtain ⟨hrun_eq2, -⟩ :=
        runLength_append_boundary isHexChar (c :: x') (d2 ++ y) (by simp) hxlast
      by_cases h8 : 8 ≤ runLength isHexChar (c :: x')
      · have hm1 : matchHash ((c :: x') ++ (d1 ++ y)) =
            some ("[hash]".data, min (runLength isHexChar (c :: x')) 32) := by
          simp only [matchHash, hrun_eq]
          rw [if_pos h8]
        have hm2 : matchHash ((c :: x') ++ (d2 ++ y)) =
            some ("[hash]".data, min (runLength isHexChar (c :: x')) 32) := by
          simp only [matchHash, hrun_eq2]
          rw [if_pos h8]
        rw [List.cons_append] at hm1 hm2
        rw [List.cons_append, List.cons_append]
        simp only [scanGo]
        rw [hm1, hm2]
        dsimp only
        have hmle : min (runLength isHexChar (c :: x')) 32 ≤ x'.length := by
          have h1 : runLength isHexChar (c :: x') ≤ x'.length := by
            simp only [List.length_cons] at hrun_lt
            omega
          omega
        have hm1p : 1 ≤ min (runLength isHexChar (c :: x')) 32 := by omega
        rw [scanGo_skip matchHash (min (runLength isHexChar (c :: x')) 32 - 1)
              (x' ++ (d1 ++ y)),
            scanGo_skip matchHash (min (runLength isHexChar (c :: x')) 32 - 1)
              (x' ++ (d2 ++ y))]
        rw [List.drop_append_of_le_length (by omega),
          List.drop_append_of_le_length (by omega)]
        have hx2ne : x'.drop (min (runLength isHexChar (c :: x')) 32 - 1) ≠ [] := by
          rw [ne_eq, List.drop_eq_nil_iff]
          push_neg
          have h1 : runLength isHexChar (c :: x') ≤ x'.length := by
            simp only [List.length_cons] at hrun_lt
            omega
          have h2 : (8 : Nat) ≤ min (runLength isHexChar (c :: x')) 32 := by omega
          omega
        have hxlast' : ∀ cc,
            (x'.drop (min (runLength isHexChar (c :: x')) 32 - 1)).getLast? = some cc →
            isHexChar cc = false := by
          intro cc hcc
          rw [getLast?_drop_of_ne_nil hx2ne] at hcc
          apply hxlast
          rw [getLast?_cons_of_ne_nil]
          · exact hcc
          · intro he
            rw [he] at hx2ne
            simp at hx2ne
        have hlen2 : (x'.drop (min (runLength isHexChar (c :: x')) 32 - 1)).length ≤ N := by
          have := List.length_drop (min (runLength isHexChar (c :: x')) 32 - 1) x'
          simp only [List.length_cons] at hx
          omega
        rw [ihN _ hlen2 d1 d2 y hd1 h81 h321 hd2 h82 h322 hxlast' hy]
      · have hm1 : matchHash ((c :: x') ++ (d1 ++ y)) = none := by
          simp only [matchHash, hrun_eq]
          rw [if_neg h8]
        have hm2 : matchHash ((c :: x') ++ (d2 ++ y)) = none := by
          simp only [matchHash, hrun_eq2]
          rw [if_neg h8]
        rw [List.cons_append] at hm1 hm2
        rw [List.cons_append, List.cons_append]
        simp only [scanGo]
        rw [hm1, hm2]
        dsimp only
        have hxlast' : ∀ cc, x'.getLast? = some cc → isHexChar cc = false := by
          intro cc hcc
          apply hxlast
          have hx'ne : x' ≠ [] := by
            intro he
            rw [he] at hcc
            cases hcc
          rw [getLast?_cons_of_ne_nil hx'ne]
          exact hcc
        have hlen' : x'.length ≤ N := by
          simp only [List.length_cons] at hx
          omega
        rw [ihN x' hlen' d1 d2 y hd1 h81 h321 hd2 h82 h322 hxlast' hy]

/-- C1 counterexample: the two paths differ only in an 8-character hex digest
(bbbbbbbb versus cccccccc), but 25 hex characters precede the digest, so the
bounded-greedy hash pattern consumes 32 of the 33-character hex run and
leaves the digest's last character behind, making the stable identifiers
differ. -/
theorem C1_counterexample :
    cxParts1.pathname.data =
      "/aaaaaaaaaaaaaaaaaaaaaaaaa".data ++ ("bbbbbbbb".data ++ ".js".data) ∧
    cxParts2.pathname.data =
      "/aaaaaaaaaaaaaaaaaaaaaaaaa".data ++ ("cccccccc".data ++ ".js".data) ∧
    (∀ c ∈ "bbbbbbbb".data, isHexChar c = true) ∧
    (∀ c ∈ "cccccccc".data, isHexChar c = true) ∧
    "bbbbbbbb".data.length = 8 ∧ "cccccccc".data.length = 8 ∧
    (FilenameNormalizer.normalize cxParse cxUrl1).identifier = "https://x.com/b.js" ∧
    (FilenameNormalizer.normalize cxParse cxUrl2).identifier = "https://x.com/c.js" ∧
    ("https://x.com/b.js" : String) ≠ "https://x.com/c.js" := by
  refine ⟨by decide, by decide, by decide, by decide, by decide, by decide, ?_, ?_, by decide⟩
  · decide
  · decide

/-- C1 (amended): replacing one 8-32 character hex digest in the path by
another yields the same stable identifier provided the digest is delimited:
the character before it (if any) and the character after it (if any) are not
hex characters.  In particular main.1a2b3c4d.js and main.9f8e7d6c.js get the
same identifier.  Without the delimitation proviso the claim fails (see the
counterexample). -/
theorem C1_hash_digest_replacement_stable
    (parseURL : String → Option FilenameNormalizer.URLParts) (u1 u2 : String)
    (o hs sr : String) (x d1 d2 y : List Char)
    (hp1 : parseURL u1 = some ⟨o, hs, String.mk (x ++ (d1 ++ y)), sr⟩)
    (hp2 : parseURL u2 = some ⟨o, hs, String.mk (x ++ (d2 ++ y)), sr⟩)
    (hex1 : ∀ c ∈ d1, isHexChar c = true) (h81 : 8 ≤ d1.length) (h321 : d1.length ≤ 32)
    (hex2 : ∀ c ∈ d2, isHexChar c = true) (h82 : 8 ≤ d2.length) (h322 : d2.length ≤ 32)
    (hx : ∀ c, x.getLast? = some c → isHexChar c = false)
    (hy : ∀ c, y.head? = some c → isHexChar c = false) :
    (FilenameNormalizer.normalize parseURL u1).identifier =
      (FilenameNormalizer.normalize parseURL u2).identifier := by
  have key := scanHash_digest_invariant x.length x le_rfl d1 d2 y
    hex1 h81 h321 hex2 h82 h322 hx hy
  have hnorm : normalizeChars (x ++ (d1 ++ y)) = normalizeChars (x ++ (d2 ++ y)) := by
    rw [normalizeChars, normalizeChars]
    rw [show scanP matchHash (x ++ (d1 ++ y)) = scanP matchHash (x ++ (d2 ++ y)) from key]
  simp only [FilenameNormalizer.normalize, hp1, hp2]
  rw [hnorm]

/-- C1 witness: the amended theorem at the spec's own example pair, together
with the concrete shared identifier. -/
theorem C1_witness :
    (FilenameNormalizer.normalize wParse wUrl1).identifier =
      (FilenameNormalizer.normalize wParse wUrl2).identifier ∧
    (FilenameNormalizer.normalize wParse wUrl1).identifier = "https://x.com/main.js" := by
  constructor
  · exact C1_hash_digest_replacement_stable wParse wUrl1 wUrl2 "https://x.com" "x.com" ""
      "/main.".data "1a2b3c4d".data "9f8e7d6c".data ".js".data
      (by decide) (by decide) (by decide) (by decide) (by decide) (by decide)
      (by decide) (by decide) (by decide) (by decide)
  · decide

/-! ## Claim C5 -/

/-- C5 counterexample: the claim says every field of the malformed-input
result equals the raw input string, but the catch branch of normalize sets
the host field to the literal string unknown, not to the input. -/
theorem C5_counterexample :
    (FilenameNormalizer.normalize (fun _ => none) "notaurl").host = "unknown" ∧
    (FilenameNormalizer.normalize (fun _ => none) "notaurl").host ≠ "notaurl" ∧
    (FilenameNormalizer.normalize (fun _ => none) "notaurl").original = "notaurl" := by
  refine ⟨rfl, ?_, rfl⟩
  decide

/-- C5 (amended): for every input string that fails to parse as a URL,
normalize returns the raw input as original, normalized, identifier, pathname
and filename, and the literal string unknown as host, without failing. -/
theorem C5_parse_failure_passthrough
    (parseURL : String → Option FilenameNormalizer.URLParts) (url : String)
    (h : parseURL url = none) :
    FilenameNormalizer.normalize parseURL url =
      { original := url, normalized := url, identifier := url,
        host := "unknown", pathname := url, filename := url } := by
  simp [FilenameNormalizer.normalize, h]

/-- C5 witness: the amended theorem applied to a concrete failing parse. -/
theorem C5_witness :
    ((fun _ => none : String → Option FilenameNormalizer.URLParts) "notaurl" = none) ∧
    FilenameNormalizer.normalize (fun _ => none) "notaurl" =
      { original := "notaurl", normalized := "notaurl", identifier := "notaurl",
        host := "unknown", pathname := "notaurl", filename := "notaurl" } :=
  ⟨rfl, C5_parse_failure_passthrough (fun _ => none) "notaurl" rfl⟩

/-! ## Claim C4 -/

/-- C4 counterexample: the claim says every placeholder produced by the rule
table, including build[n], is removed from the identifier, but on the path
/build123.js the identifier keeps the build[n] placeholder, whichever way
the removal of build[n] is read. -/
theorem C4_counterexample :
    (FilenameNormalizer.normalize cxBuildParse "https://x.com/build123.js").identifier =
      "https://x.com/build[n].js" ∧
    ("https://x.com/build[n].js" : String) ≠ "https://x.com/.js" ∧
    ("https://x.com/build[n].js" : String) ≠ "https://x.com/build.js" := by
  refine ⟨?_, by decide, by decide⟩
  decide

/-- C4 (amended): for every valid URL the stable identifier equals the URL's
origin prefixed to the normalized path with the placeholder tokens [hash],
[id], [chunk], [timestamp], [uuid] and [version] removed entirely, in that
order, and runs of punctuation collapsed; the build[n] and runtime~[name]
placeholders are not removed. -/
theorem C4_identifier_strips_six_tokens
    (parseURL : String → Option FilenameNormalizer.URLParts) (url : String)
    (p : FilenameNormalizer.URLParts) (h : parseURL url = some p) :
    (FilenameNormalizer.normalize parseURL url).identifier =
      identifierSpec p.origin (String.mk (normalizeChars p.pathname.data)) := by
  simp [FilenameNormalizer.normalize, h, identifierSpec,
    FilenameNormalizer.createIdentifier, stripPlaceholders, strippedTokens,
    collapsePunct, List.foldl]

/-- C4 witness: the amended theorem applied to the concrete build-tag URL. -/
theorem C4_witness :
    cxBuildParse "https://x.com/build123.js" =
      some { origin := "https://x.com", host := "x.com",
             pathname := "/build123.js", search := "" } ∧
    (FilenameNormalizer.normalize cxBuildParse "https://x.com/build123.js").identifier =
      identifierSpec "https://x.com" (String.mk (normalizeChars "/build123.js".data)) :=
  ⟨by decide,
   C4_identifier_strips_six_tokens cxBuildParse "https://x.com/build123.js"
     { origin := "https://x.com", host := "x.com", pathname := "/build123.js", search := "" }
     (by decide)⟩

/-! ## Claim C6 -/

theorem taggedNewlines_cons (tag : DiffPart → Bool) (p : DiffPart) (rest : List DiffPart) :
    taggedNewlines tag (p :: rest) =
      (if tag p then newlineCount p.value else 0) + taggedNewlines tag rest := by
  simp only [taggedNewlines, List.filter_cons]
  split
  · simp
  · simp

theorem countLoop_eq (l : List DiffPart) (a d u : Nat) :
    Differ.countLoop l (a, d, u) =
      (a + taggedNewlines isAddedPart l, d + taggedNewlines isRemovedPart l,
       u + taggedNewlines isUnchangedPart l) := by
  induction l generalizing a d u with
  | nil => simp [Differ.countLoop, taggedNewlines]
  | cons p rest ih =>
    simp only [Differ.countLoop]
    by_cases hA : p.added
    · rw [if_pos hA, ih]
      rw [taggedNewlines_cons, taggedNewlines_cons, taggedNewlines_cons]
      simp [isAddedPart, isRemovedPart, isUnchangedPart, hA]
      omega
    · rw [if_neg hA]
      by_cases hR : p.removed
      · rw [if_pos hR, ih]
        rw [taggedNewlines_cons, taggedNewlines_cons, taggedNewlines_cons]
        simp [isAddedPart, isRemovedPart, isUnchangedPart, hA, hR]
        omega
      · rw [if_neg hR, ih]
        rw [taggedNewlines_cons, taggedNewlines_cons, taggedNewlines_cons]
        simp [isAddedPart, isRemovedPart, isUnchangedPart, hA, hR]
        omega

/-- C6 counterexample: the claim counts non-empty lines (not counting a
trailing empty line, counting an unterminated final line); the code counts
newline characters, so an unterminated final line is not counted and interior
empty lines are counted.  Both divergences at concrete segments. -/
theorem C6_counterexample :
    (Differ.calculateStats [{ value := "a", added := true, removed := false }] "a" "a").additions
      = 0 ∧
    nonEmptyLineCount "a" = 1 ∧
    (Differ.calculateStats [{ value := "x\n\ny\n", added := true, removed := false }]
        "x\n\ny\n" "x\n\ny\n").additions = 3 ∧
    nonEmptyLineCount "x\n\ny\n" = 2 ∧ (0 : Nat) ≠ 1 ∧ (3 : Nat) ≠ 2 := by
  refine ⟨rfl, ?_, rfl, ?_, by decide, by decide⟩ <;> decide

/-- C6 (amended): additions, deletions and unchanged are each the sum over
the segments with that tag of the number of newline characters in the
segment (so interior empty lines count and an unterminated final line does
not), and changePercent equals (additions + deletions) divided by
max(totalOld, 1), times 100, rounded to two decimal places. -/
theorem C6_calculateStats_newline_counts (lineDiff : List DiffPart) (oldC newC : String) :
    (Differ.calculateStats lineDiff oldC newC).additions = taggedNewlines isAddedPart lineDiff ∧
    (Differ.calculateStats lineDiff oldC newC).deletions = taggedNewlines isRemovedPart lineDiff ∧
    (Differ.calculateStats lineDiff oldC newC).unchanged =
      taggedNewlines isUnchangedPart lineDiff ∧
    (Differ.calculateStats lineDiff oldC newC).changePercent =
      roundTo2 ((((Differ.calculateStats lineDiff oldC newC).additions : ℚ) +
          ((Differ.calculateStats lineDiff oldC newC).deletions : ℚ)) /
        ((max (Differ.calculateStats lineDiff oldC newC).totalOld 1 : Nat) : ℚ) * 100) := by
  have hc := countLoop_eq lineDiff 0 0 0
  have h1 : (if splitLineCount oldC = 0 then 1 else splitLineCount oldC) =
      max (splitLineCount oldC) 1 := by
    have : splitLineCount oldC = newlineCount oldC + 1 := rfl
    rw [this, if_neg (Nat.succ_ne_zero _)]
    omega
  refine ⟨?_, ?_, ?_, ?_⟩
  · simp only [Differ.calculateStats]
    rw [hc]
    simp
  · simp only [Differ.calculateStats]
    rw [hc]
    simp
  · simp only [Differ.calculateStats]
    rw [hc]
    simp
  · simp only [Differ.calculateStats]
    rw [hc, h1]

/-! ## Claim C10 -/

/-- C10: whenever storeScript reports a new Script it also reports a new
Version: a freshly allocated script id is below no existing version-list key,
so the script's version list is empty and the content hash cannot be found. -/
theorem C10_new_script_new_version (hash : String → String) (now : String)
    (s : StorageState) (tid scan : Nat) (d : ScriptData) (n : NormInfo)
    (hkeys : ∀ e ∈ s.db.scriptVersions, e.1 < s.db.nextId.script) :
    (Storage.storeScript hash now s tid scan d n).1.isNewScript = true →
    (Storage.storeScript hash now s tid scan d n).1.isNewVersion = true := by
  simp only [Storage.storeScript]
  cases hl : lookupA (tid, n.identifier) s.db.scripts with
  | some sc =>
    dsimp only
    cases hv : lookupA sc.id s.db.scriptVersions with
    | none =>
      dsimp only
      rw [lookupA_setA_self]
      dsimp only [Option.getD_some, List.find?_nil]
      exact fun h => nomatch h
    | some L =>
      dsimp only
      rw [hv]
      dsimp only [Option.getD_some]
      cases hf : List.find? (fun v => v.contentHash == hash d.content) L with
      | some v => exact fun h => nomatch h
      | none => exact fun h => nomatch h
  | none =>
    dsimp only
    have hvnone : lookupA s.db.nextId.script s.db.scriptVersions = none := by
      cases hv : lookupA s.db.nextId.script s.db.scriptVersions with
      | none => rfl
      | some L =>
        have hm := lookupA_mem hv
        have := hkeys _ hm
        omega
    rw [hvnone]
    dsimp only
    rw [lookupA_setA_self]
    dsimp only [Option.getD_some, List.find?_nil]
    intro _
    rfl

/-- C10 witness: the theorem applied to the empty state. -/
theorem C10_witness :
    (∀ e ∈ emptyState.db.scriptVersions, e.1 < emptyState.db.nextId.script) ∧
    ((Storage.storeScript (fun c => c) "t" emptyState 1 1
        { url := "u", content := "X", size := 1 }
        { identifier := "A", normalized := "n", filename := "f" }).1.isNewScript = true →
     (Storage.storeScript (fun c => c) "t" emptyState 1 1
        { url := "u", content := "X", size := 1 }
        { identifier := "A", normalized := "n", filename := "f" }).1.isNewVersion = true) :=
  by
  refine ⟨?_, ?_⟩
  · intro e he
    cases he
  · exact C10_new_script_new_version (fun c => c) "t" emptyState 1 1 _ _
      (by intro e he; cases he)

/-! ## Claim C2: storeScript deduplication -/

theorem mem_setA [DecidableEq κ] {k : κ} {v : ν} {l : List (κ × ν)} {e : κ × ν}
    (h : e ∈ setA k v l) : e = (k, v) ∨ e ∈ l := by
  induction l with
  | nil => simpa [setA] using h
  | cons e' rest ih =>
    rw [setA] at h
    split at h
    · rcases List.mem_cons.mp h with rfl | h'
      · exact Or.inl rfl
      · exact Or.inr (List.mem_cons_of_mem _ h')
    · rcases List.mem_cons.mp h with rfl | h'
      · exact Or.inr (by simp)
      · rcases ih h' with h'' | h''
        · exact Or.inl h''
        · exact Or.inr (List.mem_cons_of_mem _ h'')

/-- Full characterization of one storeScript call: the script record written,
the id counters, and per-key lookup of the version lists after the call. -/
theorem storeScript_spec (hash : String → String) (now : String) (s : StorageState)
    (tid scan : Nat) (d : ScriptData) (n : NormInfo) :
    ∃ (script : Script) (L : List Version),
      L = (lookupA script.id s.db.scriptVersions).getD [] ∧
      (Storage.storeScript hash now s tid scan d n).1.scriptId = script.id ∧
      (Storage.storeScript hash now s tid scan d n).1.contentHash = hash d.content ∧
      (Storage.storeScript hash now s tid scan d n).2.db.scripts =
        setA (tid, n.identifier) script s.db.scripts ∧
      ((lookupA (tid, n.identifier) s.db.scripts = none ∧
          (Storage.storeScript hash now s tid scan d n).1.isNewScript = true ∧
          script.id = s.db.nextId.script ∧
          (Storage.storeScript hash now s tid scan d n).2.db.nextId.script =
            s.db.nextId.script + 1) ∨
       (∃ sc, lookupA (tid, n.identifier) s.db.scripts = some sc ∧
          (Storage.storeScript hash now s tid scan d n).1.isNewScript = false ∧
          script = { sc with lastSeen := now } ∧
          (Storage.storeScript hash now s tid scan d n).2.db.nextId.script =
            s.db.nextId.script)) ∧
      ((∃ v, List.find? (fun v => v.contentHash == hash d.content) L = some v ∧
          (Storage.storeScript hash now s tid scan d n).1.isNewVersion = false ∧
          (Storage.storeScript hash now s tid scan d n).1.versionId = v.id ∧
          (Storage.storeScript hash now s tid scan d n).2.db.nextId.version =
            s.db.nextId.version ∧
          (∀ k, lookupA k (Storage.storeScript hash now s tid scan d n).2.db.scriptVersions =
            (if k = script.id then some L else lookupA k s.db.scriptVersions)) ∧
          (Storage.storeScript hash now s tid scan d n).2.files = s.files) ∨
       (List.find? (fun v => v.contentHash == hash d.content) L = none ∧
          (Storage.storeScript hash now s tid scan d n).1.isNewVersion = true ∧
          (Storage.storeScript hash now s tid scan d n).1.versionId = s.db.nextId.version ∧
          (Storage.storeScript hash now s tid scan d n).2.db.nextId.version =
            s.db.nextId.version + 1 ∧
          (∃ v : Version, v.id = s.db.nextId.version ∧
            v.contentHash = hash d.content ∧ v.contentFile = s.db.nextId.version ∧
            v.scriptId = script.id ∧
            (∀ k, lookupA k
                (Storage.storeScript hash now s tid scan d n).2.db.scriptVersions =
              (if k = script.id then some (L ++ [v]) else lookupA k s.db.scriptVersions))) ∧
          (Storage.storeScript hash now s tid scan d n).2.files =
            setA s.db.nextId.version d.content s.files)) := by
  simp only [Storage.storeScript]
  cases hl : lookupA (tid, n.identifier) s.db.scripts with
  | none =>
    dsimp only
    refine ⟨{ id := s.db.nextId.script, targetId := tid, url := d.url,
              normalizedUrl := n.normalized, identifier := n.identifier,
              baseName := n.filename, firstSeen := now, lastSeen := now },
            (lookupA s.db.nextId.script s.db.scriptVersions).getD [], rfl, ?_⟩
    cases hv : lookupA s.db.nextId.script s.db.scriptVersions with
    | none =>
      dsimp only
      rw [lookupA_setA_self]
      dsimp only [Option.getD_some, Option.getD_none, List.find?_nil]
      refine ⟨rfl, rfl, rfl, Or.inl ⟨rfl, rfl, rfl, rfl⟩,
        Or.inr ⟨rfl, rfl, rfl, rfl, ?_, rfl⟩⟩
      refine ⟨{ id := s.db.nextId.version, scriptId := s.db.nextId.script, scanId := scan,
                contentHash := hash d.content, contentFile := s.db.nextId.version,
                size := d.size, url := d.url, timestamp := now },
              rfl, rfl, rfl, rfl, ?_⟩
      intro k
      by_cases hk : k = s.db.nextId.script
      · subst hk
        rw [if_pos rfl, lookupA_setA_self]
      · rw [if_neg hk, lookupA_setA_ne _ _ _ _ hk, lookupA_setA_ne _ _ _ _ hk]
    | some L0 =>
      dsimp only
      rw [hv]
      dsimp only [Option.getD_some]
      cases hf : List.find? (fun v => v.contentHash == hash d.content) L0 with
      | some v =>
        refine ⟨rfl, rfl, rfl, Or.inl ⟨rfl, rfl, rfl, rfl⟩,
          Or.inl ⟨v, rfl, rfl, rfl, rfl, ?_, rfl⟩⟩
        intro k
        by_cases hk : k = s.db.nextId.script
        · subst hk
          rw [if_pos rfl, hv]
        · rw [if_neg hk]
      | none =>
        refine ⟨rfl, rfl, rfl, Or.inl ⟨rfl, rfl, rfl, rfl⟩,
          Or.inr ⟨rfl, rfl, rfl, rfl, ?_, rfl⟩⟩
        refine ⟨{ id := s.db.nextId.version, scriptId := s.db.nextId.script, scanId := scan,
                  contentHash := hash d.content, contentFile := s.db.nextId.version,
                  size := d.size, url := d.url, timestamp := now },
                rfl, rfl, rfl, rfl, ?_⟩
        intro k
        by_cases hk : k = s.db.nextId.script
        · subst hk
          rw [if_pos rfl, lookupA_setA_self]
        · rw [if_neg hk, lookupA_setA_ne _ _ _ _ hk]
  | some sc =>
    dsimp only
    refine ⟨{ sc with lastSeen := now },
            (lookupA sc.id s.db.scriptVersions).getD [], rfl, ?_⟩
    cases hv : lookupA sc.id s.db.scriptVersions with
    | none =>
      dsimp only
      rw [lookupA_setA_self]
      dsimp only [Option.getD_some, Option.getD_none, List.find?_nil]
      refine ⟨rfl, rfl, rfl, Or.inr ⟨sc, rfl, rfl, rfl, rfl⟩,
        Or.inr ⟨rfl, rfl, rfl, rfl, ?_, rfl⟩⟩
      refine ⟨{ id := s.db.nextId.version, scriptId := sc.id, scanId := scan,
                contentHash := hash d.content, contentFile := s.db.nextId.version,
                size := d.size, url := d.url, timestamp := now },
              rfl, rfl, rfl, rfl, ?_⟩
      intro k
      by_cases hk : k = sc.id
      · subst hk
        rw [if_pos rfl, lookupA_setA_self]
      · rw [if_neg hk, lookupA_setA_ne _ _ _ _ hk, lookupA_setA_ne _ _ _ _ hk]
    | some L0 =>
      dsimp only
      rw [hv]
      dsimp only [Option.getD_some]
      cases hf : List.find? (fun v => v.contentHash == hash d.content) L0 with
      | some v =>
        refine ⟨rfl, rfl, rfl, Or.inr ⟨sc, rfl, rfl, rfl, rfl⟩,
          Or.inl ⟨v, rfl, rfl, rfl, rfl, ?_, rfl⟩⟩
        intro k
        by_cases hk : k = sc.id
        · subst hk
          rw [if_pos rfl, hv]
        · rw [if_neg hk]
      | none =>
        refine ⟨rfl, rfl, rfl, Or.inr ⟨sc, rfl, rfl, rfl, rfl⟩,
          Or.inr ⟨rfl, rfl, rfl, rfl, ?_, rfl⟩⟩
        refine ⟨{ id := s.db.nextId.version, scriptId := sc.id, scanId := scan,
                  contentHash := hash d.content, contentFile := s.db.nextId.version,
                  size := d.size, url := d.url, timestamp := now },
                rfl, rfl, rfl, rfl, ?_⟩
        intro k
        by_cases hk : k = sc.id
        · subst hk
          rw [if_pos rfl, lookupA_setA_self]
        · rw [if_neg hk, lookupA_setA_ne _ _ _ _ hk]

theorem find?_append_of_none {p : α → Bool} {l1 l2 : List α}
    (h : List.find? p l1 = none) : List.find? p (l1 ++ l2) = List.find? p l2 := by
  induction l1 with
  | nil => rfl
  | cons a t ih =>
    rw [List.find?_cons] at h
    rw [List.cons_append, List.find?_cons]
    cases hpa : p a with
    | true => simp [hpa] at h
    | false =>
      simp only [hpa] at h ⊢
      exact ih h

/-- C2: content deduplication of storeScript, scoped per Script.  Part 1:
storing the same content twice for the same (targetId, identifier) key gives
isNewVersion = false and the same version id on the second call.  Part 2:
from a well-formed state, storing contents with different hashes for the same
key gives different version ids.  Part 3: the hash search is scoped to the
Script's own version list: storing the same content under a fresh key still
allocates a new version with a different id. -/
theorem C2_storeScript_dedup (hash : String → String) :
    (∀ (now1 now2 : String) (s : StorageState) (tid scan1 scan2 : Nat)
        (d1 d2 : ScriptData) (n1 n2 : NormInfo),
        d1.content = d2.content → n1.identifier = n2.identifier →
        (Storage.storeScript hash now2
            (Storage.storeScript hash now1 s tid scan1 d1 n1).2
            tid scan2 d2 n2).1.isNewVersion = false ∧
        (Storage.storeScript hash now2
            (Storage.storeScript hash now1 s tid scan1 d1 n1).2
            tid scan2 d2 n2).1.versionId =
          (Storage.storeScript hash now1 s tid scan1 d1 n1).1.versionId) ∧
    (∀ (now1 now2 : String) (s : StorageState) (tid scan1 scan2 : Nat)
        (d1 d2 : ScriptData) (n1 n2 : NormInfo),
        VWF s → hash d1.content ≠ hash d2.content → n1.identifier = n2.identifier →
        (Storage.storeScript hash now2
            (Storage.storeScript hash now1 s tid scan1 d1 n1).2
            tid scan2 d2 n2).1.versionId ≠
          (Storage.storeScript hash now1 s tid scan1 d1 n1).1.versionId) ∧
    (∀ (now1 now2 : String) (s : StorageState) (tid1 tid2 scan1 scan2 : Nat)
        (d1 d2 : ScriptData) (n1 n2 : NormInfo),
        VWF s → (tid2, n2.identifier) ≠ (tid1, n1.identifier) →
        lookupA (tid2, n2.identifier) s.db.scripts = none →
        (Storage.storeScript hash now2
            (Storage.storeScript hash now1 s tid1 scan1 d1 n1).2
            tid2 scan2 d2 n2).1.isNewVersion = true ∧
        (Storage.storeScript hash now2
            (Storage.storeScript hash now1 s tid1 scan1 d1 n1).2
            tid2 scan2 d2 n2).1.versionId ≠
          (Storage.storeScript hash now1 s tid1 scan1 d1 n1).1.versionId) := by
  refine ⟨?_, ?_, ?_⟩
  · -- Part 1: same content twice for the same key.
    intro now1 now2 s tid scan1 scan2 d1 d2 n1 n2 hcont hid
    obtain ⟨sc1, L1, hL1, hsid1, hch1, hscr1, hbr1, hver1⟩ :=
      storeScript_spec hash now1 s tid scan1 d1 n1
    obtain ⟨sc2, L2, hL2, hsid2, hch2, hscr2, hbr2, hver2⟩ :=
      storeScript_spec hash now2 (Storage.storeScript hash now1 s tid scan1 d1 n1).2
        tid scan2 d2 n2
    have hhash : hash d2.content = hash d1.content := by rw [hcont]
    have hlk2 : lookupA (tid, n2.identifier)
        (Storage.storeScript hash now1 s tid scan1 d1 n1).2.db.scripts = some sc1 := by
      rw [hscr1, hid]
      exact lookupA_setA_self _ _ _
    have hsc2id : sc2.id = sc1.id := by
      rcases hbr2 with ⟨hnone, _, _, _⟩ | ⟨sc, hsome, _, hsc2, _⟩
      · rw [hlk2] at hnone; cases hnone
      · rw [hlk2] at hsome
        cases hsome
        rw [hsc2]
    rcases hver1 with ⟨v, hfind1, _, hvid1, _, hkchar1, _⟩ |
        ⟨hfind1, _, hvid1, _, ⟨v, hvId, hvHash, _, _, hkchar1⟩, _⟩
    · -- first call found an existing version v in L1
      have hL2v : L2 = L1 := by
        rw [hL2, hsc2id, hkchar1 sc1.id, if_pos rfl]
        rfl
      rcases hver2 with ⟨v2, hfind2, hnew2, hvid2, _, _, _⟩ | ⟨hfind2, _, _, _, _, _⟩
      · simp only [hhash, hL2v] at hfind2
        rw [hfind1] at hfind2
        cases hfind2
        exact ⟨hnew2, by rw [hvid2, hvid1]⟩
      · simp only [hhash, hL2v] at hfind2
        rw [hfind1] at hfind2
        cases hfind2
    · -- first call appended a new version v
      have hL2v : L2 = L1 ++ [v] := by
        rw [hL2, hsc2id, hkchar1 sc1.id, if_pos rfl]
        rfl
      have hfindv : List.find? (fun w => w.contentHash == hash d1.content) (L1 ++ [v]) =
          some v := by
        have hb : (v.contentHash == hash d1.content) = true := by simp [hvHash]
        rw [find?_append_of_none hfind1, List.find?_cons, hb]
      rcases hver2 with ⟨v2, hfind2, hnew2, hvid2, _, _, _⟩ | ⟨hfind2, _, _, _, _, _⟩
      · simp only [hhash, hL2v] at hfind2
        rw [hfindv] at hfind2
        cases hfind2
        exact ⟨hnew2, by rw [hvid2, hvid1, hvId]⟩
      · simp only [hhash, hL2v] at hfind2
        rw [hfindv] at hfind2
        cases hfind2
  · -- Part 2: distinct hashes for the same key give distinct ids.
    intro now1 now2 s tid scan1 scan2 d1 d2 n1 n2 hwf hhne hid
    obtain ⟨sc1, L1, hL1, hsid1, hch1, hscr1, hbr1, hver1⟩ :=
      storeScript_spec hash now1 s tid scan1 d1 n1
    obtain ⟨sc2, L2, hL2, hsid2, hch2, hscr2, hbr2, hver2⟩ :=
      storeScript_spec hash now2 (Storage.storeScript hash now1 s tid scan1 d1 n1).2
        tid scan2 d2 n2
    have hlk2 : lookupA (tid, n2.identifier)
        (Storage.storeScript hash now1 s tid scan1 d1 n1).2.db.scripts = some sc1 := by
      rw [hscr1, hid]
      exact lookupA_setA_self _ _ _
    have hsc2id : sc2.id = sc1.id := by
      rcases hbr2 with ⟨hnone, _, _, _⟩ | ⟨sc, hsome, _, hsc2, _⟩
      · rw [hlk2] at hnone; cases hnone
      · rw [hlk2] at hsome
        cases hsome
        rw [hsc2]
    have hL1mem : ∀ w ∈ L1, ∃ LL, lookupA sc1.id s.db.scriptVersions = some LL ∧ w ∈ LL := by
      intro w hw
      cases hlk : lookupA sc1.id s.db.scriptVersions with
      | none =>
        rw [hL1, hlk] at hw
        cases hw
      | some LL =>
        rw [hL1, hlk] at hw
        exact ⟨LL, rfl, hw⟩
    rcases hver1 with ⟨v1, hfind1, _, hvid1, hnver1, hkchar1, _⟩ |
        ⟨hfind1, _, hvid1, hnver1, ⟨v1, hv1Id, hv1Hash, _, _, hkchar1⟩, _⟩
    · -- first call found v1 ∈ L1
      have hv1L : v1 ∈ L1 := List.mem_of_find?_eq_some hfind1
      have hv1hash : v1.contentHash = hash d1.content := by
        have := List.find?_some hfind1
        simpa using this
      obtain ⟨LL, hLL, hv1LL⟩ := hL1mem v1 hv1L
      have hv1lt : v1.id < s.db.nextId.version :=
        hwf.verIdsLt _ (lookupA_mem hLL) v1 hv1LL
      have hL2v : L2 = L1 := by
        rw [hL2, hsc2id, hkchar1 sc1.id, if_pos rfl]
        rfl
      rcases hver2 with ⟨v2, hfind2, _, hvid2, _, _, _⟩ | ⟨hfind2, _, hvid2, _, _, _⟩
      · -- second also found: two members of L1 with different hashes
        rw [hL2v] at hfind2
        have hv2L : v2 ∈ L1 := List.mem_of_find?_eq_some hfind2
        have hv2hash : v2.contentHash = hash d2.content := by
          have := List.find?_some hfind2
          simpa using this
        have hvne : v1 ≠ v2 := by
          intro he
          rw [he, hv2hash] at hv1hash
          exact hhne hv1hash.symm
        obtain ⟨LL2, hLL2, hv2LL⟩ := hL1mem v2 hv2L
        rw [hLL] at hLL2
        cases hLL2
        have hnodup := hwf.verIdsNodup _ (lookupA_mem hLL)
        have hne2 : v1.id ≠ v2.id := by
          intro hidEq
          exact hvne (List.inj_on_of_nodup_map hnodup hv1LL hv2LL hidEq)
        rw [hvid2, hvid1]
        exact fun h => hne2 h.symm
      · -- second allocated a fresh id above every existing one
        rw [hvid2, hnver1, hvid1]
        omega
    · -- first call allocated s.db.nextId.version
      have hL2v : L2 = L1 ++ [v1] := by
        rw [hL2, hsc2id, hkchar1 sc1.id, if_pos rfl]
        rfl
      rcases hver2 with ⟨v2, hfind2, _, hvid2, _, _, _⟩ | ⟨hfind2, _, hvid2, _, _, _⟩
      · -- second found v2 in L1 ++ [v1]; it cannot be v1, so it is old
        rw [hL2v] at hfind2
        have hv2mem := List.mem_of_find?_eq_some hfind2
        have hv2hash : v2.contentHash = hash d2.content := by
          have := List.find?_some hfind2
          simpa using this
        have hv2ne : v2 ≠ v1 := by
          intro he
          rw [he, hv1Hash] at hv2hash
          exact hhne hv2hash
        have hv2L1 : v2 ∈ L1 := by
          rcases List.mem_append.mp hv2mem with h | h
          · exact h
          · rcases List.mem_cons.mp h with rfl | h'
            · exact absurd rfl hv2ne
            · cases h'
        obtain ⟨LL, hLL, hv2LL⟩ := hL1mem v2 hv2L1
        have hv2lt : v2.id < s.db.nextId.version :=
          hwf.verIdsLt _ (lookupA_mem hLL) v2 hv2LL
        rw [hvid2, hvid1]
        omega
      · rw [hvid2, hnver1, hvid1]
        omega
  · -- Part 3: a fresh key gets its own empty version list.
    intro now1 now2 s tid1 tid2 scan1 scan2 d1 d2 n1 n2 hwf hkne hk2none
    obtain ⟨sc1, L1, hL1, hsid1, hch1, hscr1, hbr1, hver1⟩ :=
      storeScript_spec hash now1 s tid1 scan1 d1 n1
    obtain ⟨sc2, L2, hL2, hsid2, hch2, hscr2, hbr2, hver2⟩ :=
      storeScript_spec hash now2 (Storage.storeScript hash now1 s tid1 scan1 d1 n1).2
        tid2 scan2 d2 n2
    have hlk2 : lookupA (tid2, n2.identifier)
        (Storage.storeScript hash now1 s tid1 scan1 d1 n1).2.db.scripts = none := by
      rw [hscr1, lookupA_setA_ne _ _ _ _ hkne]
      exact hk2none
    have hsc2id : sc2.id =
        (Storage.storeScript hash now1 s tid1 scan1 d1 n1).2.db.nextId.script := by
      rcases hbr2 with ⟨_, _, hid2, _⟩ | ⟨sc, hsome, _, _, _⟩
      · exact hid2
      · rw [hlk2] at hsome
        cases hsome
    have hsc1lt : sc1.id <
        (Storage.storeScript hash now1 s tid1 scan1 d1 n1).2.db.nextId.script := by
      rcases hbr1 with ⟨_, _, hid1, hnext1⟩ | ⟨sc, hsome, _, hsc1, hnext1⟩
      · rw [hid1, hnext1]
        omega
      · have := hwf.scriptIdsLt _ (lookupA_mem hsome)
        rw [hsc1, hnext1]
        exact this
    have hne12 : sc2.id ≠ sc1.id := by
      rw [hsc2id]
      omega
    have hs1next : s.db.nextId.script ≤
        (Storage.storeScript hash now1 s tid1 scan1 d1 n1).2.db.nextId.script := by
      rcases hbr1 with ⟨_, _, _, hnext1⟩ | ⟨_, _, _, _, hnext1⟩ <;> rw [hnext1] <;> omega
    have hsvnone : lookupA sc2.id s.db.scriptVersions = none := by
      cases hsv : lookupA sc2.id s.db.scriptVersions with
      | none => rfl
      | some LL =>
        have h1 := hwf.svKeysLt _ (lookupA_mem hsv)
        dsimp only at h1
        omega
    have hL2e : L2 = [] := by
      rcases hver1 with ⟨_, _, _, _, _, hkchar1, _⟩ |
          ⟨_, _, _, _, ⟨v, _, _, _, _, hkchar1⟩, _⟩ <;>
      · rw [hL2, hkchar1 sc2.id, if_neg hne12, hsvnone]
        rfl
    have hr1lt : (Storage.storeScript hash now1 s tid1 scan1 d1 n1).1.versionId <
        (Storage.storeScript hash now1 s tid1 scan1 d1 n1).2.db.nextId.version := by
      rcases hver1 with ⟨v1, hfind1, _, hvid1, hnver1, _, _⟩ |
          ⟨_, _, hvid1, hnver1, _, _⟩
      · have hv1L : v1 ∈ L1 := List.mem_of_find?_eq_some hfind1
        cases hlk : lookupA sc1.id s.db.scriptVersions with
        | none =>
          rw [hL1, hlk] at hv1L
          cases hv1L
        | some LL =>
          rw [hL1, hlk] at hv1L
          have := hwf.verIdsLt _ (lookupA_mem hlk) v1 hv1L
          rw [hvid1, hnver1]
          exact this
      · rw [hvid1, hnver1]
        omega
    rcases hver2 with ⟨v2, hfind2, _, _, _, _, _⟩ | ⟨_, hnew2, hvid2, _, _, _⟩
    · rw [hL2e] at hfind2
      cases hfind2
    · refine ⟨hnew2, ?_⟩
      rw [hvid2]
      omega

/-- C2 witness: the three parts applied from the empty state with the
identity digest: re-storing "X" under key (1, A) deduplicates to the same id,
storing "Y" under the same key gets a different id, and storing "X" under the
fresh key (1, B) is a new version with a different id. -/
theorem C2_witness :
    VWF emptyState ∧
    (Storage.storeScript (fun c => c) "t2"
        (Storage.storeScript (fun c => c) "t1" emptyState 1 1
          ({ url := "u", content := "X", size := 1 })
          ({ identifier := "A", normalized := "n", filename := "f" })).2
        1 2 ({ url := "u", content := "X", size := 1 })
        ({ identifier := "A", normalized := "n", filename := "f" })).1.isNewVersion = false ∧
    (Storage.storeScript (fun c => c) "t2"
        (Storage.storeScript (fun c => c) "t1" emptyState 1 1
          ({ url := "u", content := "X", size := 1 })
          ({ identifier := "A", normalized := "n", filename := "f" })).2
        1 2 ({ url := "u", content := "X", size := 1 })
        ({ identifier := "A", normalized := "n", filename := "f" })).1.versionId =
      (Storage.storeScript (fun c => c) "t1" emptyState 1 1
        ({ url := "u", content := "X", size := 1 })
        ({ identifier := "A", normalized := "n", filename := "f" })).1.versionId ∧
    (Storage.storeScript (fun c => c) "t2"
        (Storage.storeScript (fun c => c) "t1" emptyState 1 1
          ({ url := "u", content := "X", size := 1 })
          ({ identifier := "A", normalized := "n", filename := "f" })).2
        1 2 ({ url := "u", content := "Y", size := 1 })
        ({ identifier := "A", normalized := "n", filename := "f" })).1.versionId ≠
      (Storage.storeScript (fun c => c) "t1" emptyState 1 1
        ({ url := "u", content := "X", size := 1 })
        ({ identifier := "A", normalized := "n", filename := "f" })).1.versionId ∧
    (Storage.storeScript (fun c => c) "t2"
        (Storage.storeScript (fun c => c) "t1" emptyState 1 1
          ({ url := "u", content := "X", size := 1 })
          ({ identifier := "A", normalized := "n", filename := "f" })).2
        1 2 ({ url := "u", content := "X", size := 1 })
        ({ identifier := "B", normalized := "n", filename := "f" })).1.isNewVersion = true := by
  have hwf : VWF emptyState := by
    constructor <;> (intro e he; cases he)
  have h := C2_storeScript_dedup (fun c => c)
  refine ⟨hwf, ?_, ?_, ?_, ?_⟩
  · exact (h.1 "t1" "t2" emptyState 1 1 2 _ _ _ _ rfl rfl).1
  · exact (h.1 "t1" "t2" emptyState 1 1 2 _ _ _ _ rfl rfl).2
  · exact h.2.1 "t1" "t2" emptyState 1 1 2 _ _ _ _ hwf (by decide) rfl
  · exact (h.2.2 "t1" "t2" emptyState 1 1 1 2 _ _ _ _ hwf (by decide) rfl).1

/-! ## Claim C9: removeTarget -/

theorem lookupA_eraseA_none [DecidableEq κ] {k' : κ} {l : List (κ × ν)} (k : κ)
    (h : lookupA k' l = none) : lookupA k' (eraseA k l) = none := by
  by_cases hk : k' = k
  · subst hk
    exact lookupA_eraseA_self _ _
  · rw [lookupA_eraseA_ne _ _ _ hk]
    exact h

theorem removeFilesOf_none {fid : Nat} {files : List (Nat × String)} (vs : List Version)
    (h : lookupA fid files = none) :
    lookupA fid (Storage.removeFilesOf vs files) = none := by
  induction vs generalizing files with
  | nil => exact h
  | cons v rest ih =>
    show lookupA fid (Storage.removeFilesOf rest (eraseA v.contentFile files)) = none
    exact ih (lookupA_eraseA_none _ h)

theorem removeFilesOf_mem {fid : Nat} {files : List (Nat × String)} {vs : List Version}
    {v : Version} (hv : v ∈ vs) (hcf : v.contentFile = fid) :
    lookupA fid (Storage.removeFilesOf vs files) = none := by
  induction vs generalizing files with
  | nil => cases hv
  | cons w rest ih =>
    show lookupA fid (Storage.removeFilesOf rest (eraseA w.contentFile files)) = none
    rcases List.mem_cons.mp hv with rfl | hv'
    · apply removeFilesOf_none
      rw [← hcf]
      exact lookupA_eraseA_self _ _
    · exact ih hv'

theorem removeFilesOf_not_mem {fid : Nat} {files : List (Nat × String)} {vs : List Version}
    (h : ∀ v ∈ vs, v.contentFile ≠ fid) :
    lookupA fid (Storage.removeFilesOf vs files) = lookupA fid files := by
  induction vs generalizing files with
  | nil => rfl
  | cons w rest ih =>
    show lookupA fid (Storage.removeFilesOf rest (eraseA w.contentFile files)) = _
    rw [ih fun v hv => h v (List.mem_cons_of_mem _ hv)]
    exact lookupA_eraseA_ne _ _ _ fun he => h w (by simp) he.symm

/-- Full characterization of the script-removal loop of removeTarget. -/
theorem removeScriptsLoop_spec (tid : Nat) (entries : List ((Nat × String) × Script))
    (sv : List (Nat × List Version)) (files : List (Nat × String))
    (hnodup : (entries.map fun e => e.2.id).Nodup) :
    (Storage.removeScriptsLoop tid entries sv files).1 =
      entries.filter (fun e => e.2.targetId != tid) ∧
    (∀ sid, (∃ e ∈ entries, e.2.targetId = tid ∧ e.2.id = sid) →
      lookupA sid (Storage.removeScriptsLoop tid entries sv files).2.1 = none) ∧
    (∀ sid, (∀ e ∈ entries, e.2.targetId = tid → e.2.id ≠ sid) →
      lookupA sid (Storage.removeScriptsLoop tid entries sv files).2.1 = lookupA sid sv) ∧
    (∀ fid, (∃ e ∈ entries, e.2.targetId = tid ∧
        ∃ v ∈ (lookupA e.2.id sv).getD [], v.contentFile = fid) →
      lookupA fid (Storage.removeScriptsLoop tid entries sv files).2.2 = none) ∧
    (∀ fid, (∀ e ∈ entries, e.2.targetId = tid →
        ∀ v ∈ (lookupA e.2.id sv).getD [], v.contentFile ≠ fid) →
      lookupA fid (Storage.removeScriptsLoop tid entries sv files).2.2 = lookupA fid files) := by
  induction entries generalizing sv files with
  | nil =>
    refine ⟨rfl, ?_, ?_, ?_, ?_⟩
    · rintro sid ⟨e, he, -⟩
      cases he
    · intro sid _
      rfl
    · rintro fid ⟨e, he, -⟩
      cases he
    · intro fid _
      rfl
  | cons e rest ih =>
    rw [List.map_cons, List.nodup_cons] at hnodup
    obtain ⟨hid_notin, hnodup'⟩ := hnodup
    rw [Storage.removeScriptsLoop]
    by_cases ht : e.2.targetId = tid
    · rw [if_pos ht]
      have IH := ih (eraseA e.2.id sv)
        (Storage.removeFilesOf ((lookupA e.2.id sv).getD []) files) hnodup'
      have hidne : ∀ e' ∈ rest, e'.2.id ≠ e.2.id := by
        intro e' he' heq
        exact hid_notin (List.mem_map.mpr ⟨e', he', heq⟩)
      have hlk_erase : ∀ e' ∈ rest,
          lookupA e'.2.id (eraseA e.2.id sv) = lookupA e'.2.id sv := by
        intro e' he'
        exact lookupA_eraseA_ne _ _ _ (hidne e' he')
      refine ⟨?_, ?_, ?_, ?_, ?_⟩
      · rw [List.filter_cons]
        have : (e.2.targetId != tid) = false := by simp [ht]
        rw [this]
        exact IH.1
      · rintro sid ⟨e', he', htid', hid'⟩
        rcases List.mem_cons.mp he' with rfl | hrest
        · by_cases hex : ∃ e'' ∈ rest, e''.2.targetId = tid ∧ e''.2.id = sid
          · exact IH.2.1 sid hex
          · push_neg at hex
            rw [IH.2.2.1 sid fun e'' he'' htid'' => hex e'' he'' htid'']
            rw [← hid']
            exact lookupA_eraseA_self _ _
        · exact IH.2.1 sid ⟨e', hrest, htid', hid'⟩
      · intro sid hall
        rw [IH.2.2.1 sid fun e'' he'' htid'' => hall e'' (List.mem_cons_of_mem _ he'') htid'']
        exact lookupA_eraseA_ne _ _ _ fun heq => hall e (by simp) ht heq.symm
      · rintro fid ⟨e', he', htid', v, hv, hcf⟩
        rcases List.mem_cons.mp he' with rfl | hrest
        · by_cases hex : ∃ e'' ∈ rest, e''.2.targetId = tid ∧
              ∃ w ∈ (lookupA e''.2.id (eraseA e'.2.id sv)).getD [], w.contentFile = fid
          · exact IH.2.2.2.1 fid hex
          · push_neg at hex
            rw [IH.2.2.2.2 fid fun e'' he'' htid'' w hw => hex e'' he'' htid'' w hw]
            exact removeFilesOf_mem hv hcf
        · have hv' : v ∈ (lookupA e'.2.id (eraseA e.2.id sv)).getD [] := by
            rw [hlk_erase e' hrest]
            exact hv
          exact IH.2.2.2.1 fid ⟨e', hrest, htid', v, hv', hcf⟩
      · intro fid hall
        have hrest_cond : ∀ e'' ∈ rest, e''.2.targetId = tid →
            ∀ w ∈ (lookupA e''.2.id (eraseA e.2.id sv)).getD [], w.contentFile ≠ fid := by
          intro e'' he'' htid'' w hw
          rw [hlk_erase e'' he''] at hw
          exact hall e'' (List.mem_cons_of_mem _ he'') htid'' w hw
        rw [IH.2.2.2.2 fid hrest_cond]
        exact removeFilesOf_not_mem fun v hv => hall e (by simp) ht v hv
    · rw [if_neg ht]
      have IH := ih sv files hnodup'
      refine ⟨?_, ?_, ?_, ?_, ?_⟩
      · have hbt : (e.2.targetId != tid) = true := by simp [ht]
        simp only [List.filter_cons, hbt, if_true]
        rw [IH.1]
      · rintro sid ⟨e', he', htid', hid'⟩
        rcases List.mem_cons.mp he' with rfl | hrest
        · exact absurd htid' ht
        · exact IH.2.1 sid ⟨e', hrest, htid', hid'⟩
      · intro sid hall
        exact IH.2.2.1 sid fun e'' he'' htid'' =>
          hall e'' (List.mem_cons_of_mem _ he'') htid''
      · rintro fid ⟨e', he', htid', v, hv, hcf⟩
        rcases List.mem_cons.mp he' with rfl | hrest
        · exact absurd htid' ht
        · exact IH.2.2.2.1 fid ⟨e', hrest, htid', v, hv, hcf⟩
      · intro fid hall
        exact IH.2.2.2.2 fid fun e'' he'' htid'' w hw =>
          hall e'' (List.mem_cons_of_mem _ he'') htid'' w hw

/-- C9: removing an unknown target returns false and leaves the whole store
state (targets, scripts, versions, scans, id counters, content files)
unchanged; removing a known target returns true, removes the target, all its
scripts, their version lists and stored content files and its scans, and
leaves every other target's records and files unchanged. -/
theorem C9_removeTarget_cascade (s : StorageState) (domain : String) :
    (lookupA domain s.db.targets = none →
      Storage.removeTarget domain s = (false, s)) ∧
    (∀ t, lookupA domain s.db.targets = some t →
      (s.db.scripts.map fun e => e.2.id).Nodup →
      (Storage.removeTarget domain s).1 = true ∧
      lookupA domain (Storage.removeTarget domain s).2.db.targets = none ∧
      (∀ d, d ≠ domain → lookupA d (Storage.removeTarget domain s).2.db.targets =
        lookupA d s.db.targets) ∧
      (Storage.removeTarget domain s).2.db.scripts =
        s.db.scripts.filter (fun e => e.2.targetId != t.id) ∧
      (Storage.removeTarget domain s).2.db.scans =
        s.db.scans.filter (fun sc => sc.targetId != t.id) ∧
      (Storage.removeTarget domain s).2.db.nextId = s.db.nextId ∧
      (∀ sid, (∃ e ∈ s.db.scripts, e.2.targetId = t.id ∧ e.2.id = sid) →
        lookupA sid (Storage.removeTarget domain s).2.db.scriptVersions = none) ∧
      (∀ sid, (∀ e ∈ s.db.scripts, e.2.targetId = t.id → e.2.id ≠ sid) →
        lookupA sid (Storage.removeTarget domain s).2.db.scriptVersions =
          lookupA sid s.db.scriptVersions) ∧
      (∀ fid, (∃ e ∈ s.db.scripts, e.2.targetId = t.id ∧
          ∃ v ∈ (lookupA e.2.id s.db.scriptVersions).getD [], v.contentFile = fid) →
        lookupA fid (Storage.removeTarget domain s).2.files = none) ∧
      (∀ fid, (∀ e ∈ s.db.scripts, e.2.targetId = t.id →
          ∀ v ∈ (lookupA e.2.id s.db.scriptVersions).getD [], v.contentFile ≠ fid) →
        lookupA fid (Storage.removeTarget domain s).2.files = lookupA fid s.files)) := by
  constructor
  · intro h
    rw [Storage.removeTarget, h]
  · intro t ht hnodup
    have HL := removeScriptsLoop_spec t.id s.db.scripts s.db.scriptVersions s.files hnodup
    rw [Storage.removeTarget, ht]
    dsimp only
    refine ⟨rfl, ?_, ?_, HL.1, rfl, rfl, ?_, ?_, ?_, ?_⟩
    · exact lookupA_eraseA_self _ _
    · intro d hd
      exact lookupA_eraseA_ne _ _ _ hd
    · exact HL.2.1
    · exact HL.2.2.1
    · exact HL.2.2.2.1
    · exact HL.2.2.2.2

/-- C9 witness: the theorem at the concrete two-target state, removing a.com:
target a.com, its script (id 1), its version list and its content files 1 and
2 disappear; target b.com, its script (id 2), its version list and file 3
survive; and removing an unknown domain from the same state is a no-op. -/
theorem C9_witness :
    Storage.removeTarget "zzz" cxTwoTargetState = (false, cxTwoTargetState) ∧
    (Storage.removeTarget "a.com" cxTwoTargetState).1 = true ∧
    lookupA "a.com" (Storage.removeTarget "a.com" cxTwoTargetState).2.db.targets = none ∧
    lookupA "b.com" (Storage.removeTarget "a.com" cxTwoTargetState).2.db.targets =
      lookupA "b.com" cxTwoTargetState.db.targets ∧
    lookupA 1 (Storage.removeTarget "a.com" cxTwoTargetState).2.db.scriptVersions = none ∧
    lookupA 2 (Storage.removeTarget "a.com" cxTwoTargetState).2.db.scriptVersions =
      lookupA 2 cxTwoTargetState.db.scriptVersions ∧
    lookupA 1 (Storage.removeTarget "a.com" cxTwoTargetState).2.files = none ∧
    lookupA 3 (Storage.removeTarget "a.com" cxTwoTargetState).2.files =
      lookupA 3 cxTwoTargetState.files := by
  have h := C9_removeTarget_cascade cxTwoTargetState "a.com"
  have h2 := (h.2 cxTarget (by decide) (by decide))
  have hzzz := (C9_removeTarget_cascade cxTwoTargetState "zzz").1 (by decide)
  have hmem2 : ∀ e ∈ cxTwoTargetState.db.scripts,
      e = ((1, "https://a.com/main.js"), cxScript) ∨
      e = ((2, "https://b.com/app.js"),
        { id := 2, targetId := 2, url := "https://b.com/app.js",
          normalizedUrl := "https://b.com/app.js",
          identifier := "https://b.com/app.js", baseName := "app.js",
          firstSeen := "t", lastSeen := "t" }) := by
    intro e he
    rcases List.mem_cons.mp he with rfl | he'
    · exact Or.inl rfl
    · rcases List.mem_cons.mp he' with rfl | he''
      · exact Or.inr rfl
      · cases he''
  refine ⟨hzzz, h2.1, h2.2.1, h2.2.2.1 "b.com" (by decide), ?_, ?_, ?_, ?_⟩
  · exact h2.2.2.2.2.2.2.1 1 ⟨((1, "https://a.com/main.js"), cxScript), by decide, rfl, rfl⟩
  · refine h2.2.2.2.2.2.2.2.1 2 ?_
    intro e he htid
    rcases hmem2 e he with rfl | rfl
    · decide
    · cases htid
  · refine h2.2.2.2.2.2.2.2.2.1 1
      ⟨((1, "https://a.com/main.js"), cxScript), by decide, rfl, cxV1, by decide, rfl⟩
  · refine h2.2.2.2.2.2.2.2.2.2 3 ?_
    intro e he htid
    rcases hmem2 e he with rfl | rfl
    · intro v hv
      have hv' : v = cxV1 ∨ v = cxV2 := by
        have hl : (lookupA (((1, "https://a.com/main.js"), cxScript) : (Nat × String) × Script).2.id
            cxTwoTargetState.db.scriptVersions).getD [] = [cxV1, cxV2] := by decide
        rw [hl] at hv
        rcases List.mem_cons.mp hv with rfl | hv2
        · exact Or.inl rfl
        · rcases List.mem_cons.mp hv2 with rfl | hv3
          · exact Or.inr rfl
          · cases hv3
      rcases hv' with rfl | rfl
      · decide
      · decide
    · cases htid

/-! ## Claim C7 -/

/-- C7 counterexample: versions 1 and 2 of the script share a timestamp and
were stored in id order; the claim says the result is ordered by descending id
([2, 1]), but the code sorts by the timestamp field with a stable sort, so the
tie keeps insertion order and the result is [1, 2]. -/
theorem C7_counterexample :
    cxV1.timestamp = cxV2.timestamp ∧
    (Storage.getScriptVersions (fun _ => 0) cxFullState 1).map (fun v => v.id) = [1, 2] ∧
    ([1, 2] : List Nat) ≠ [2, 1] := by
  refine ⟨rfl, ?_, by decide⟩
  decide

/-- C7 (amended): getScriptVersions returns a permutation of the script's
stored version list sorted by descending timestamp value (Date order), not by
descending id; ties keep stored (insertion) order, so when every timestamp is
equal the list is returned in insertion order (ascending id), unchanged. -/
theorem C7_getScriptVersions_timestamp_order (dateVal : String → Int)
    (s : StorageState) (scriptId : Nat) :
    (Storage.getScriptVersions dateVal s scriptId).Perm
      ((lookupA scriptId s.db.scriptVersions).getD []) ∧
    (Storage.getScriptVersions dateVal s scriptId).Pairwise
      (fun a b => dateVal b.timestamp ≤ dateVal a.timestamp) ∧
    ((∀ a ∈ (lookupA scriptId s.db.scriptVersions).getD [],
        ∀ b ∈ (lookupA scriptId s.db.scriptVersions).getD [],
        dateVal a.timestamp = dateVal b.timestamp) →
      Storage.getScriptVersions dateVal s scriptId =
        (lookupA scriptId s.db.scriptVersions).getD []) := by
  refine ⟨?_, ?_, ?_⟩
  · exact sortKeyDesc_perm _ _
  · exact sortKeyDesc_sorted _ _
  · intro hconst
    rw [Storage.getScriptVersions]
    exact sortKeyDesc_of_const hconst

/-- C7 witness: the amended theorem at the concrete two-version state with a
shared timestamp. -/
theorem C7_witness :
    (Storage.getScriptVersions (fun _ => 0) cxFullState 1).Perm [cxV1, cxV2] ∧
    Storage.getScriptVersions (fun _ => 0) cxFullState 1 = [cxV1, cxV2] := by
  have h := C7_getScriptVersions_timestamp_order (fun _ => 0) cxFullState 1
  have hL : (lookupA 1 cxFullState.db.scriptVersions).getD [] = [cxV1, cxV2] := by decide
  exact ⟨hL ▸ h.1, (h.2.2 (by intro a _ b _; rfl)).trans hL⟩

/-! ## Claims C3 and C8: getPreviousVersion and missing content -/

/-- The findIndex-then-successor selection of getPreviousVersion equals
taking the element after the first match. -/
theorem findSel_eq_nextAfter (p : α → Bool) (l : List α) :
    (match findIdxA p l with
     | none => (none : Option α)
     | some i => if i = l.length - 1 then none else l[i+1]?) = nextAfter p l := by
  induction l with
  | nil => rfl
  | cons a t ih =>
    rw [findIdxA, nextAfter]
    by_cases hpa : p a
    · rw [if_pos hpa, if_pos hpa]
      dsimp only
      cases t with
      | nil => rfl
      | cons b t' =>
        have hne : (0 : Nat) ≠ (a :: b :: t').length - 1 := by
          simp only [List.length_cons]
          omega
        rw [if_neg hne]
        simp
    · rw [if_neg hpa, if_neg hpa]
      cases hj : findIdxA p t with
      | none =>
        rw [hj] at ih
        simpa using ih
      | some j =>
        rw [hj] at ih
        dsimp only at ih
        have hlt : j < t.length := findIdxA_lt_length hj
        simp only [Option.map_some']
        by_cases hc : j + 1 = (a :: t).length - 1
        · rw [if_pos hc]
          have hc' : j = t.length - 1 := by
            simp only [List.length_cons] at hc
            omega
          rw [if_pos hc'] at ih
          exact ih
        · rw [if_neg hc]
          have hc' : j ≠ t.length - 1 := by
            simp only [List.length_cons] at hc
            omega
          rw [if_neg hc'] at ih
          rw [show j + 1 + 1 = j + 2 from rfl]
          rw [show ((a :: t)[j + 2]? : Option α) = t[j + 1]? by simp]
          exact ih

/-- getPreviousVersion restated through nextAfter on the sorted list. -/
theorem getPreviousVersion_eq (s : StorageState) (scriptId cur : Nat) :
    Storage.getPreviousVersion s scriptId cur =
      (match nextAfter (fun v => v.id == cur)
          (sortKeyDesc (fun v => (v.id : Int))
            ((lookupA scriptId s.db.scriptVersions).getD [])) with
       | none => none
       | some prev =>
         match lookupA prev.contentFile s.files with
         | some content => some (prev, content)
         | none => none) := by
  rw [Storage.getPreviousVersion]
  rw [← findSel_eq_nextAfter (fun v => v.id == cur)
    (sortKeyDesc (fun v => (v.id : Int)) ((lookupA scriptId s.db.scriptVersions).getD []))]
  cases h : findIdxA (fun v => v.id == cur)
      (sortKeyDesc (fun v => (v.id : Int)) ((lookupA scriptId s.db.scriptVersions).getD []))
      with
  | none => rfl
  | some i =>
    dsimp only
    split
    · rfl
    · cases hg : (sortKeyDesc (fun v => (v.id : Int))
          ((lookupA scriptId s.db.scriptVersions).getD []))[i+1]? with
      | none => rfl
      | some prev => rfl

/-- In a strictly descending list, a minimal current id has no successor. -/
theorem nextAfter_of_min {l : List Version} (hp : l.Pairwise fun a b => b.id < a.id)
    {cur : Nat} (hmin : ∀ w ∈ l, cur ≤ w.id) :
    nextAfter (fun v => v.id == cur) l = none := by
  induction l with
  | nil => rfl
  | cons a t ih =>
    rw [List.pairwise_cons] at hp
    rw [nextAfter]
    by_cases ha : a.id = cur
    · rw [if_pos (by simpa using ha)]
      cases t with
      | nil => rfl
      | cons b t' =>
        have h1 := hp.1 b (by simp)
        have h2 := hmin b (by simp)
        omega
    · rw [if_neg (by simpa using ha)]
      exact ih hp.2 fun w hw => hmin w (List.mem_cons_of_mem _ hw)

/-- In a strictly descending list, the successor of a non-minimal current id
is the largest id below it. -/
theorem nextAfter_of_exists_smaller {l : List Version}
    (hp : l.Pairwise fun a b => b.id < a.id) {cur : Nat}
    (hmem : cur ∈ l.map fun v => v.id) (hsm : ∃ w ∈ l, w.id < cur) :
    ∃ p, nextAfter (fun v => v.id == cur) l = some p ∧ p ∈ l ∧ p.id < cur ∧
      ∀ w ∈ l, w.id < cur → w.id ≤ p.id := by
  induction l with
  | nil => simp at hmem
  | cons a t ih =>
    rw [List.pairwise_cons] at hp
    rw [nextAfter]
    by_cases ha : a.id = cur
    · rw [if_pos (by simpa using ha)]
      obtain ⟨w, hw, hwlt⟩ := hsm
      have hwt : w ∈ t := by
        rcases List.mem_cons.mp hw with rfl | h
        · omega
        · exact h
      cases t with
      | nil => cases hwt
      | cons b t' =>
        refine ⟨b, rfl, by simp, ?_, ?_⟩
        · have := hp.1 b (by simp)
          omega
        · intro w' hw' hlt
          rcases List.mem_cons.mp hw' with rfl | h'
          · omega
          · rcases List.mem_cons.mp h' with rfl | h''
            · omega
            · have hpt := hp.2
              rw [List.pairwise_cons] at hpt
              have := hpt.1 w' h''
              omega
    · rw [if_neg (by simpa using ha)]
      have hmem' : cur ∈ t.map fun v => v.id := by
        rcases List.mem_map.mp hmem with ⟨w, hw, hwid⟩
        rcases List.mem_cons.mp hw with rfl | h
        · exact absurd hwid ha
        · exact List.mem_map.mpr ⟨w, h, hwid⟩
      have hcur_lt : cur < a.id := by
        rcases List.mem_map.mp hmem' with ⟨w, hw, hwid⟩
        have := hp.1 w hw
        omega
      have hsm' : ∃ w ∈ t, w.id < cur := by
        obtain ⟨w, hw, hwlt⟩ := hsm
        rcases List.mem_cons.mp hw with rfl | h
        · omega
        · exact ⟨w, h, hwlt⟩
      obtain ⟨p, hnp, hpmem, hplt, hpmax⟩ := ih hp.2 hmem' hsm'
      refine ⟨p, hnp, List.mem_cons_of_mem _ hpmem, hplt, ?_⟩
      intro w hw hlt
      rcases List.mem_cons.mp hw with rfl | h
      · omega
      · exact hpmax w h hlt

/-- Sorting by descending id is strictly descending when the ids are
distinct. -/
theorem sorted_strict_of_nodup {l : List Version}
    (hnodup : (l.map fun v => v.id).Nodup) :
    (sortKeyDesc (fun v => (v.id : Int)) l).Pairwise fun a b => b.id < a.id := by
  have hperm := sortKeyDesc_perm (fun v => (v.id : Int)) l
  have hsorted := sortKeyDesc_sorted (fun v => (v.id : Int)) l
  have hne : l.Pairwise fun a b => a.id ≠ b.id := List.pairwise_map.mp hnodup
  have hne' : (sortKeyDesc (fun v => (v.id : Int)) l).Pairwise fun a b => a.id ≠ b.id :=
    (hperm.pairwise_iff fun hab => hab.symm).mpr hne
  have := hsorted.and hne'
  refine this.imp ?_
  intro a b hab
  obtain ⟨hle, hne2⟩ := hab
  have hle' : b.id ≤ a.id := by exact_mod_cast hle
  omega

/-- C3 counterexample: in cxMissingFileState version id 2 is not the oldest
(id 1 is smaller), so the claim requires the version with id 1 to be
returned; the code returns none because version 1's content file is absent. -/
theorem C3_counterexample :
    (((lookupA 1 cxMissingFileState.db.scriptVersions).getD []).map fun v => v.id) = [1, 2] ∧
    (1 : Nat) < 2 ∧
    Storage.getPreviousVersion cxMissingFileState 1 2 = none := by
  refine ⟨?_, by omega, ?_⟩ <;> decide

/-- C3 (amended): with distinct version ids, getPreviousVersion returns none
when the current id is the smallest id of the script's list; when a smaller id
exists and the versions' content files are present, it returns (with content)
the version whose id is the largest id below the current id, by id order. -/
theorem C3_getPreviousVersion_id_order (s : StorageState) (scriptId cur : Nat)
    (hnodup : ((((lookupA scriptId s.db.scriptVersions).getD []).map fun v => v.id)).Nodup)
    (hmem : cur ∈ (((lookupA scriptId s.db.scriptVersions).getD []).map fun v => v.id)) :
    ((∀ w ∈ (lookupA scriptId s.db.scriptVersions).getD [], cur ≤ w.id) →
      Storage.getPreviousVersion s scriptId cur = none) ∧
    ((∃ w ∈ (lookupA scriptId s.db.scriptVersions).getD [], w.id < cur) →
     (∀ w ∈ (lookupA scriptId s.db.scriptVersions).getD [],
        (lookupA w.contentFile s.files).isSome) →
      ∃ p content, Storage.getPreviousVersion s scriptId cur = some (p, content) ∧
        p ∈ (lookupA scriptId s.db.scriptVersions).getD [] ∧ p.id < cur ∧
        (∀ w ∈ (lookupA scriptId s.db.scriptVersions).getD [], w.id < cur → w.id ≤ p.id) ∧
        lookupA p.contentFile s.files = some content) := by
  have hperm := sortKeyDesc_perm (fun v => (v.id : Int))
    ((lookupA scriptId s.db.scriptVersions).getD [])
  have hstrict := sorted_strict_of_nodup hnodup
  constructor
  · intro hmin
    rw [getPreviousVersion_eq]
    rw [nextAfter_of_min hstrict fun w hw => hmin w (hperm.mem_iff.mp hw)]
  · intro hsm hfiles
    have hmemS : cur ∈ (sortKeyDesc (fun v => (v.id : Int))
        ((lookupA scriptId s.db.scriptVersions).getD [])).map fun v => v.id := by
      have := (hperm.map fun v => v.id).mem_iff.mpr hmem
      exact this
    have hsmS : ∃ w ∈ sortKeyDesc (fun v => (v.id : Int))
        ((lookupA scriptId s.db.scriptVersions).getD []), w.id < cur := by
      obtain ⟨w, hw, hlt⟩ := hsm
      exact ⟨w, hperm.mem_iff.mpr hw, hlt⟩
    obtain ⟨p, hnp, hpmem, hplt, hpmax⟩ := nextAfter_of_exists_smaller hstrict hmemS hsmS
    have hpmemL : p ∈ (lookupA scriptId s.db.scriptVersions).getD [] :=
      hperm.mem_iff.mp hpmem
    obtain ⟨content, hcontent⟩ := Option.isSome_iff_exists.mp (hfiles p hpmemL)
    refine ⟨p, content, ?_, hpmemL, hplt, ?_, hcontent⟩
    · rw [getPreviousVersion_eq, hnp]
      dsimp only
      rw [hcontent]
    · intro w hw hlt
      exact hpmax w (hperm.mem_iff.mpr hw) hlt

/-- C3 witness: the amended theorem at the concrete state with both content
files present; the previous version of id 2 is the version with id 1. -/
theorem C3_witness :
    ∃ p content, Storage.getPreviousVersion cxFullState 1 2 = some (p, content) ∧
      p ∈ (lookupA 1 cxFullState.db.scriptVersions).getD [] ∧ p.id < 2 ∧
      (∀ w ∈ (lookupA 1 cxFullState.db.scriptVersions).getD [], w.id < 2 → w.id ≤ p.id) ∧
      lookupA p.contentFile cxFullState.files = some content := by
  refine (C3_getPreviousVersion_id_order cxFullState 1 2 (by decide) (by decide)).2
    ⟨cxV1, by decide, by decide⟩ ?_
  intro w hw
  have hw' : w = cxV1 ∨ w = cxV2 ∨ False := by
    have : (lookupA 1 cxFullState.db.scriptVersions).getD [] = [cxV1, cxV2] := by decide
    rw [this] at hw
    rcases List.mem_cons.mp hw with rfl | h
    · exact Or.inl rfl
    · rcases List.mem_cons.mp h with rfl | h'
      · exact Or.inr (Or.inl rfl)
      · cases h'
  rcases hw' with rfl | rfl | hF
  · decide
  · decide
  · cases hF

/-- C8 counterexample: a version record exists (id 1 of script 1) and its
backing content file is absent; the claim says a read through
getPreviousVersion returns the metadata without content, but the code
returns none. -/
theorem C8_counterexample :
    cxV1 ∈ (lookupA 1 cxMissingFileState.db.scriptVersions).getD [] ∧
    lookupA cxV1.contentFile cxMissingFileState.files = none ∧
    Storage.getPreviousVersion cxMissingFileState 1 2 = none := by
  refine ⟨?_, ?_, ?_⟩ <;> decide

theorem getVersionContentGo_some {files : List (Nat × String)} {vid : Nat}
    {l : List (Nat × List Version)} {v : Version} {c : Option String}
    (h : Storage.getVersionContentGo files vid l = some (v, c)) :
    v.id = vid ∧ c = lookupA v.contentFile files := by
  induction l with
  | nil => cases h
  | cons e rest ih =>
    rw [Storage.getVersionContentGo] at h
    cases hf : e.2.find? (fun v => v.id == vid) with
    | some w =>
      rw [hf] at h
      cases h
      have := List.find?_some hf
      exact ⟨by simpa using this, rfl⟩
    | none =>
      rw [hf] at h
      exact ih h

theorem getVersionContentGo_exists {files : List (Nat × String)} {vid : Nat}
    {l : List (Nat × List Version)}
    (h : ∃ e ∈ l, ∃ v ∈ e.2, v.id = vid) :
    ∃ v c, Storage.getVersionContentGo files vid l = some (v, c) := by
  induction l with
  | nil =>
    obtain ⟨e, he, _⟩ := h
    cases he
  | cons e rest ih =>
    rw [Storage.getVersionContentGo]
    cases hf : e.2.find? (fun v => v.id == vid) with
    | some w => exact ⟨w, lookupA w.contentFile files, rfl⟩
    | none =>
      obtain ⟨e', he', v, hv, hvid⟩ := h
      rcases List.mem_cons.mp he' with rfl | hrest
      · have := List.find?_eq_none.mp hf v hv
        simp [hvid] at this
      · exact ih ⟨e', hrest, v, hv, hvid⟩

/-- C8 (amended): getVersionContent returns the version's metadata with the
content when the backing file exists and with no content when it is absent
(never failing when the record exists); getPreviousVersion, by contrast,
returns none when the selected previous version's content file is absent. -/
theorem C8_missing_content_semantics :
    (∀ (s : StorageState) (vid : Nat) (v : Version) (c : Option String),
        Storage.getVersionContent s vid = some (v, c) →
        v.id = vid ∧ c = lookupA v.contentFile s.files) ∧
    (∀ (s : StorageState) (vid : Nat),
        (∃ e ∈ s.db.scriptVersions, ∃ v ∈ e.2, v.id = vid) →
        ∃ v c, Storage.getVersionContent s vid = some (v, c)) ∧
    (∀ (s : StorageState) (scriptId cur : Nat) (prev : Version),
        nextAfter (fun v => v.id == cur)
          (sortKeyDesc (fun v => (v.id : Int))
            ((lookupA scriptId s.db.scriptVersions).getD [])) = some prev →
        lookupA prev.contentFile s.files = none →
        Storage.getPreviousVersion s scriptId cur = none) := by
  refine ⟨?_, ?_, ?_⟩
  · intro s vid v c h
    exact getVersionContentGo_some h
  · intro s vid h
    exact getVersionContentGo_exists h
  · intro s scriptId cur prev hnext hfile
    rw [getPreviousVersion_eq, hnext]
    dsimp only
    rw [hfile]

/-- C8 witness: the amended theorem at the concrete state whose version 1
content file is missing: getVersionContent still returns the record, while
getPreviousVersion returns none. -/
theorem C8_witness :
    (∃ v c, Storage.getVersionContent cxMissingFileState 1 = some (v, c)) ∧
    Storage.getPreviousVersion cxMissingFileState 1 2 = none :=
  ⟨C8_missing_content_semantics.2.1 cxMissingFileState 1
      ⟨(1, [cxV1, cxV2]), by decide, cxV1, by decide, rfl⟩,
   C8_missing_content_semantics.2.2 cxMissingFileState 1 2 cxV1 (by decide) (by decide)⟩

end UCMon
